import Mathlib

/-! Verification development for the incremental Shopify ETL pipeline
(src/analytics/pipeline.py).  Civil dates are modelled as year/month/day
triples, upstream timestamps as a UTC civil date plus the second of the day,
and monetary values as exact rationals.  Raw snapshot fields that may be
absent or unparseable are modelled by dedicated inductives so that the
error-handling paths of the code are represented faithfully. -/

namespace Dashboard

/-! ## Dates and timestamps -/

structure Date where
  y : Nat
  m : Nat
  d : Nat
deriving DecidableEq, Repr

def Date.key (dt : Date) : Nat := dt.y * 10000 + dt.m * 100 + dt.d

/-- Comparison of ISO-formatted dates (the code compares date strings). -/
def dateLe (a b : Date) : Bool := decide (a.key ≤ b.key)

/-- SQL BETWEEN on dates, inclusive on both ends. -/
def inRange (lo hi d : Date) : Bool := dateLe lo d && dateLe d hi

def isLeap (y : Nat) : Bool := y % 4 == 0 && (y % 100 != 0 || y % 400 == 0)

def daysInMonth (y m : Nat) : Nat :=
  if m == 2 then (if isLeap y then 29 else 28)
  else if m == 4 || m == 6 || m == 9 || m == 11 then 30
  else 31

def Date.next (dt : Date) : Date :=
  if dt.d < daysInMonth dt.y dt.m then ⟨dt.y, dt.m, dt.d + 1⟩
  else if dt.m < 12 then ⟨dt.y, dt.m + 1, 1⟩
  else ⟨dt.y + 1, 1, 1⟩

/-- A parsed upstream timestamp: UTC civil date plus second of the day. -/
structure Ts where
  date : Date
  sec : Nat
deriving DecidableEq, Repr

/-- IST is UTC+05:30, i.e. 19800 seconds. -/
def istOffsetSeconds : Nat := 19800

/-- The IST calendar date of a UTC timestamp (dt.astimezone(IST).date()). -/
def Ts.istDate (t : Ts) : Date :=
  if t.sec + istOffsetSeconds < 86400 then t.date else t.date.next

/-- A raw timestamp field of a snapshot: absent, unparseable, or parsed. -/
inductive TsField where
  | missing
  | malformed
  | valid (t : Ts)
deriving DecidableEq, Repr

/-- Embeds _parse_iso_to_ist_date: None on absent or unparseable input,
otherwise the IST calendar date of the timestamp. -/
def parseIsoToIstDate : TsField → Option Date
  | .valid t => some t.istDate
  | _ => none

/-! ## Monetary fields -/

/-- A raw monetary field: absent, unparseable, or a numeric value. -/
inductive MoneyField where
  | missing
  | malformed
  | val (q : ℚ)
deriving DecidableEq

/-- Embeds float(x or 0.0): 0 for an absent value, failure (a raised
ValueError) for an unparseable one. -/
def floatOrZero : MoneyField → Option ℚ
  | .missing => some 0
  | .malformed => none
  | .val q => some q

/-- Python round-half-to-even of a rational to an integer. -/
def roundHalfEven (x : ℚ) : ℤ :=
  let n : ℤ := ⌊x⌋
  let f : ℚ := x - (n : ℚ)
  if f < 1/2 then n
  else if 1/2 < f then n + 1
  else if n % 2 = 0 then n else n + 1

/-- Embeds round(v, 2). -/
def round2 (q : ℚ) : ℚ := ((roundHalfEven (q * 100) : ℤ) : ℚ) / 100

/-- A rational that is an exact two-decimal monetary amount. -/
def isCents (q : ℚ) : Prop := ∃ n : ℤ, q = (n : ℚ) / 100

/-! ## Snapshots (raw order records from the upstream API) -/

structure Txn where
  kind : Option String
  amount : MoneyField
deriving DecidableEq

structure Refund where
  created_at : TsField
  txns : List Txn
deriving DecidableEq

structure Snapshot where
  id : Option Nat
  created_at : TsField
  updated_at : TsField
  cancelled_at : TsField
  total_price : MoneyField
  refunds : List Refund
deriving DecidableEq

/-- ASCII lowercasing, embedding the str.lower() calls of the code. -/
def lowerStr (s : String) : String := String.mk (s.data.map Char.toLower)

/-- Transaction kinds counted as monetary returns. -/
def refundKinds : List String := ["refund", "chargeback", "return"]

/-- Embeds (t.get('kind') or '').lower() in ('refund', 'chargeback', 'return'). -/
def kindOk (t : Txn) : Bool :=
  match t.kind with
  | some s => refundKinds.contains (lowerStr s)
  | none => false

/-- Embeds the `if o.get('id')` guard: a missing id and the falsy id 0 are
both skipped. -/
def snapId (o : Snapshot) : Option Nat :=
  match o.id with
  | some n => if n = 0 then none else some n
  | none => none

/-! ## Returns reconciler (upsert_returns_fact_from_orders) -/

inductive EType where
  | CANCEL
  | REFUND
deriving DecidableEq, Repr

abbrev FactKey := Nat × EType × Date

/-- The in-memory aggregation dict keyed by (order id, event type, date). -/
abbrev Agg := List (FactKey × ℚ)

def lookupAgg : Agg → FactKey → Option ℚ
  | [], _ => none
  | p :: rest, k => if p.1 = k then some p.2 else lookupAgg rest k

/-- Embeds agg[key] = f(agg.get(key, 0.0)). -/
def updAgg (agg : Agg) (k : FactKey) (f : ℚ → ℚ) : Agg :=
  if agg.any (fun p => decide (p.1 = k)) then
    agg.map (fun p => if p.1 = k then (p.1, f p.2) else p)
  else agg ++ [(k, f 0)]

/-- Sum of the absolute values of the parseable amounts of the refund's
transactions whose kind is a monetary return; a malformed amount is skipped
(the except-continue branch), an absent one counts as zero. -/
def recSum (rf : Refund) : ℚ :=
  rf.txns.foldl
    (fun s t =>
      if kindOk t then
        match t.amount with
        | .missing => s + |(0 : ℚ)|
        | .malformed => s
        | .val q => s + |q|
      else s) 0

/-- The CANCEL branch of the snapshot loop.  A parseable cancellation date
with an unparseable total_price raises (there is no except around the
float conversion), hence the Option result. -/
def cancelStep (agg : Agg) (n : Nat) (o : Snapshot) : Option Agg :=
  match parseIsoToIstDate o.cancelled_at with
  | some d =>
    match floatOrZero o.total_price with
    | none => none
    | some amt => some (updAgg agg (n, .CANCEL, d) (fun cur => max cur amt))
  | none => some agg

/-- The refund loop of the snapshot: one update per refund sub-record with a
parseable date and a positive transaction sum. -/
def refundStep (agg : Agg) (n : Nat) (rfs : List Refund) : Agg :=
  rfs.foldl
    (fun a rf =>
      match parseIsoToIstDate rf.created_at with
      | none => a
      | some d =>
        if 0 < recSum rf then updAgg a (n, .REFUND, d) (fun cur => cur + recSum rf)
        else a) agg

def processOrder (agg : Agg) (o : Snapshot) : Option Agg :=
  match snapId o with
  | none => some agg
  | some n =>
    match cancelStep agg n o with
    | none => none
    | some agg1 => some (refundStep agg1 n o.refunds)

def processAll (agg : Agg) : List Snapshot → Option Agg
  | [] => some agg
  | o :: rest =>
    match processOrder agg o with
    | none => none
    | some agg1 => processAll agg1 rest

def deriveAgg (b : List Snapshot) : Option Agg := processAll [] b

/-- The rows handed to executemany: each aggregated value rounded to two
decimals.  none models an uncaught exception escaping the batch. -/
def deriveRows (b : List Snapshot) : Option (List (FactKey × ℚ)) :=
  (deriveAgg b).map (fun agg => agg.map (fun p => (p.1, round2 p.2)))

/-- The returns_fact store as a map from primary key to amount. -/
abbrev Store := FactKey → Option ℚ

/-- One INSERT ... ON DUPLICATE KEY UPDATE amount = VALUES(amount). -/
def setKey (st : Store) (k : FactKey) (v : ℚ) : Store :=
  fun k' => if k' = k then some v else st k'

def upsertRows (st : Store) (rows : List (FactKey × ℚ)) : Store :=
  rows.foldl (fun s r => setKey s r.1 r.2) st

/-- One reconciler run over a batch: empty batches and empty aggregations
return without touching the store; a raised exception yields none. -/
def runReconciler (st : Store) (b : List Snapshot) : Option Store :=
  if b = [] then some st
  else
    match deriveRows b with
    | none => none
    | some rows => if rows = [] then some st else some (upsertRows st rows)

/-! ## Affected date range accumulation (get_affected_date_range) -/

/-- Every IST date implied by one snapshot: created_at, updated_at,
cancelled_at and each refund sub-record's created_at. -/
def snapshotDates (o : Snapshot) : List Date :=
  (parseIsoToIstDate o.created_at).toList ++
  (parseIsoToIstDate o.updated_at).toList ++
  (parseIsoToIstDate o.cancelled_at).toList ++
  o.refunds.filterMap (fun rf => parseIsoToIstDate rf.created_at)

def allDatesOf (orders : List Snapshot) : List Date :=
  (orders.map snapshotDates).flatten

def minD (l : List Date) : Option Date :=
  l.foldl
    (fun acc d =>
      match acc with
      | none => some d
      | some m => some (if dateLe d m then d else m)) none

def maxD (l : List Date) : Option Date :=
  l.foldl
    (fun acc d =>
      match acc with
      | none => some d
      | some m => some (if dateLe m d then d else m)) none

def getAffectedDateRange (orders : List Snapshot) : Option Date × Option Date :=
  if orders = [] then (none, none)
  else (minD (allDatesOf orders), maxD (allDatesOf orders))

/-! ## Fetch-window computation (process_single_brand, non-backfill branch) -/

/-- Validation of the BACKFILL_* environment override: active only when the
mode flag is set, both bounds parsed, and start is strictly before end. -/
def validateBackfill (mode : Bool) (s e : Option ℤ) : Option (ℤ × ℤ) :=
  if mode then
    match s, e with
    | some a, some b => if a < b then some (a, b) else none
    | _, _ => none
  else none

/-- The fetch window for one feed, in epoch seconds: the backfill override
verbatim when active; otherwise skip when there is no checkpoint, else
last timestamp plus one second up to now. -/
def computeFetchWindow (backfill : Option (ℤ × ℤ)) (lastTs : Option ℤ)
    (nowTs : ℤ) : Option (ℤ × ℤ) :=
  match backfill with
  | some w => some w
  | none =>
    match lastTs with
    | none => none
    | some t => some (t + 1, nowTs)

/-! ## Boundary dedup (get_orders_with_same_timestamp and the filter) -/

/-- A database error while reading the boundary ids is caught and logged,
yielding the empty set. -/
def getOrdersWithSameTimestamp (dbResult : Except Unit (List Nat)) : List Nat :=
  match dbResult with
  | .ok ids => ids
  | .error _ => []

/-- Embeds the duplicate filter over a fetched batch: with an empty
existing-id set the batch is passed through unchanged. -/
def filterNewOrders (existing : List Nat) (orders : List Snapshot) : List Snapshot :=
  if existing = [] then orders
  else
    orders.filter
      (fun o =>
        match o.id with
        | some n => !(existing.contains n)
        | none => true)

/-! ## Order fetching (fetch_orders_async) -/

/-- One upstream response: a 429 with a retry delay, a non-success status,
or a page of orders together with the presence of a rel=next link. -/
inductive PageResp where
  | rate (retryAfter : Nat)
  | fail (status : Nat)
  | page (orders : List Nat) (hasNext : Bool)
deriving DecidableEq, Repr

/-- The pagination loop over a stream of responses: a 429 sleeps and
repeats the same request (consuming the next response), a non-success
breaks out of the loop, an empty page breaks, a page extends the
accumulator and follows the next link if present.  In every break case the
accumulated orders are returned as the result. -/
def fetchGo : List PageResp → List Nat → List Nat
  | [], acc => acc
  | .rate _ :: rest, acc => fetchGo rest acc
  | .fail _ :: _, acc => acc
  | .page [] _ :: _, acc => acc
  | .page os true :: rest, acc => fetchGo rest (acc ++ os)
  | .page os false :: _, acc => acc ++ os

def fetchOrders (resps : List PageResp) : List Nat := fetchGo resps []

/-! ## Source tables for the incremental summary queries -/

/-- A row of shopify_orders or shopify_orders_update with the columns the
summary queries read. -/
structure OrderRow where
  order_id : Nat
  created_date : Option Date
  created_hour : Option Nat
  updated_date : Option Date
  order_app_name : Option String
  financial_status : Option String
  total_price : Option ℚ
  discount_amount : Option ℚ
  payment_gateway_names : Option String
  shipping_price : Option ℚ
  total_tax : Option ℚ
  line_item_quantity : Option ℚ
  line_item_price : Option ℚ
deriving DecidableEq

/-- A row of returns_fact. -/
structure FactRow where
  order_id : Nat
  event_date : Date
  event_type : EType
  amount : ℚ
deriving DecidableEq

/-- SQL LIKE with wildcards on both sides of the pattern. -/
def begWith : List Char → List Char → Bool
  | [], _ => true
  | _ :: _, [] => false
  | a :: as, b :: bs => decide (a = b) && begWith as bs

def hasSub : List Char → List Char → Bool
  | [], pat => begWith pat []
  | a :: rest, pat => begWith pat (a :: rest) || hasSub rest pat

def likeContains (s pat : String) : Bool := hasSub s.data pat.data

/-- NULL-aware SQL test date BETWEEN lo AND hi on a nullable column. -/
def inRangeOpt (lo hi : Date) (od : Option Date) : Bool :=
  match od with
  | some d => inRange lo hi d
  | none => false

/-- The financial_status NOT IN ('paid', 'pending') filter; a NULL status
fails the SQL three-valued comparison and is excluded. -/
def fsOK (r : OrderRow) : Bool :=
  match r.financial_status with
  | some s => decide (s ≠ "paid" ∧ s ≠ "pending")
  | none => false

/-- Deduplication preserving first occurrences (SELECT DISTINCT / UNION). -/
def dedupL {α : Type} [DecidableEq α] (l : List α) : List α :=
  l.foldl (fun acc x => if acc.any (fun y => decide (y = x)) then acc else acc ++ [x]) []

/-! ## sales_summary (update_sales_summary_incremental) -/

/-- The rows of shopify_orders grouped into date d by created_date within
the affected range (the SalesData CTE grouping). -/
def createdAt (orders : List OrderRow) (lo hi d : Date) : List OrderRow :=
  orders.filter (fun r => inRangeOpt lo hi r.created_date && decide (r.created_date = some d))

/-- The rows of shopify_orders_update grouped into date d by updated_date
within the affected range, under the financial-status filter (the
ReturnsData CTE grouping). -/
def returnedAt (updates : List OrderRow) (lo hi d : Date) : List OrderRow :=
  updates.filter
    (fun r => fsOK r && inRangeOpt lo hi r.updated_date && decide (r.updated_date = some d))

/-- SUM(CASE WHEN order_app_name = app THEN total_price ELSE 0 END) over the
SalesData group of date d. -/
def salesSum (orders : List OrderRow) (lo hi d : Date) (app : String) : ℚ :=
  (createdAt orders lo hi d).foldl
    (fun s r => s + (if r.order_app_name = some app then r.total_price.getD 0 else 0)) 0

/-- The matching per-app sum over the ReturnsData group of date d. -/
def returnsSum (updates : List OrderRow) (lo hi d : Date) (app : String) : ℚ :=
  (returnedAt updates lo hi d).foldl
    (fun s r => s + (if r.order_app_name = some app then r.total_price.getD 0 else 0)) 0

/-- SUM(amount) over returns_fact WHERE event_type = REFUND AND event_date
BETWEEN lo AND hi, for the group of date d (the RefundsByDate CTE). -/
def refundSumRange (facts : List FactRow) (lo hi d : Date) : ℚ :=
  (facts.filter
      (fun f =>
        decide (f.event_type = .REFUND) && inRange lo hi f.event_date &&
          decide (f.event_date = d))).foldl
    (fun s f => s + f.amount) 0

/-- The sum the specification describes for overall_returns: SUM(amount)
over ReturnFact where event_type = REFUND and event_date = d, with no
range restriction and no reference to order rows. -/
def refundSumSpec (facts : List FactRow) (d : Date) : ℚ :=
  (facts.filter
      (fun f => decide (f.event_type = .REFUND) && decide (f.event_date = d))).foldl
    (fun s f => s + f.amount) 0

def salesDates (orders : List OrderRow) (lo hi : Date) : List Date :=
  dedupL ((orders.filter (fun r => inRangeOpt lo hi r.created_date)).filterMap
    (fun r => r.created_date))

def returnsDates (updates : List OrderRow) (lo hi : Date) : List Date :=
  dedupL ((updates.filter (fun r => fsOK r && inRangeOpt lo hi r.updated_date)).filterMap
    (fun r => r.updated_date))

def refundDates (facts : List FactRow) (lo hi : Date) : List Date :=
  dedupL ((facts.filter
      (fun f => decide (f.event_type = .REFUND) && inRange lo hi f.event_date)).map
    (fun f => f.event_date))

/-- The AllDates CTE of the sales_summary insert. -/
def salesAllDates (orders updates : List OrderRow) (facts : List FactRow)
    (lo hi : Date) : List Date :=
  dedupL (salesDates orders lo hi ++ returnsDates updates lo hi ++ refundDates facts lo hi)

def appNames : List String :=
  ["GoKwik", "KwikEngage", "Online Store", "HYPD_store", "Draft Order",
   "Dpanda", "GKAppbrew", "BuyKaro", "AppbrewPlus"]

/-- The eight channels that enter the overall sums without HYPD. -/
def appsWOHypd : List String :=
  ["GoKwik", "KwikEngage", "Online Store", "Draft Order",
   "Dpanda", "GKAppbrew", "BuyKaro", "AppbrewPlus"]

/-- The nine channels, in the order the overall_sales expression adds them. -/
def appsWithHypd : List String :=
  ["GoKwik", "KwikEngage", "Online Store", "Draft Order", "HYPD_store",
   "Dpanda", "GKAppbrew", "BuyKaro", "AppbrewPlus"]

def sumApps (f : String → ℚ) (apps : List String) : ℚ :=
  apps.foldl (fun s a => s + f a) 0

structure SSRow where
  date : Date
  channels : List (String × ℚ × ℚ × ℚ)
  overall_sales_WO_hypd : ℚ
  overall_returns_WO_hypd : ℚ
  actual_overall_sales_WO_hypd : ℚ
  overall_sales : ℚ
  overall_returns : ℚ
  actual_overall_sales : ℚ
deriving DecidableEq

/-- One inserted sales_summary row for a date of AllDates, with every
COALESCE(x, 0) of the SELECT applied. -/
def mkSalesRow (orders updates : List OrderRow) (facts : List FactRow)
    (lo hi d : Date) : SSRow :=
  { date := d
  , channels :=
      appNames.map
        (fun a =>
          (a, salesSum orders lo hi d a, returnsSum updates lo hi d a,
            salesSum orders lo hi d a - returnsSum updates lo hi d a))
  , overall_sales_WO_hypd := sumApps (salesSum orders lo hi d) appsWOHypd
  , overall_returns_WO_hypd := sumApps (returnsSum updates lo hi d) appsWOHypd
  , actual_overall_sales_WO_hypd :=
      sumApps (salesSum orders lo hi d) appsWOHypd -
        sumApps (returnsSum updates lo hi d) appsWOHypd
  , overall_sales := sumApps (salesSum orders lo hi d) appsWithHypd
  , overall_returns := refundSumRange facts lo hi d
  , actual_overall_sales :=
      sumApps (salesSum orders lo hi d) appsWithHypd - refundSumRange facts lo hi d }

def newSalesRows (orders updates : List OrderRow) (facts : List FactRow)
    (lo hi : Date) : List SSRow :=
  (salesAllDates orders updates facts lo hi).map (mkSalesRow orders updates facts lo hi)

/-- DELETE FROM sales_summary WHERE date BETWEEN lo AND hi, then INSERT the
freshly computed rows. -/
def updateSalesSummaryIncremental (tbl : List SSRow) (orders updates : List OrderRow)
    (facts : List FactRow) (lo hi : Date) : List SSRow :=
  tbl.filter (fun r => !(inRange lo hi r.date)) ++ newSalesRows orders updates facts lo hi

/-! ## order_summary (update_order_summary_incremental) -/

/-- The COD bucket of the created/returned sides: NULL, empty, or a gateway
string naming cash on delivery. -/
def pgCOD (pg : Option String) : Bool :=
  match pg with
  | none => true
  | some s =>
      decide (s = "") || likeContains s "Cash on Delivery (COD)" ||
        likeContains s "cash_on_delivery"

def pgPPCOD (pg : Option String) : Bool :=
  match pg with
  | none => false
  | some s => likeContains s "Gokwik PPCOD"

def pgPrepaid (pg : Option String) : Bool :=
  match pg with
  | none => false
  | some s =>
      decide (s ≠ "") &&
        !(likeContains s "Cash on Delivery (COD)" || likeContains s "cash_on_delivery" ||
          likeContains s "Gokwik PPCOD")

/-- COUNT(DISTINCT order_id) over the rows satisfying a condition. -/
def distinctCount (rows : List OrderRow) (cond : OrderRow → Bool) : Nat :=
  (dedupL ((rows.filter cond).map (fun r => r.order_id))).length

structure ORow where
  date : Date
  number_of_orders_created : Nat
  number_of_orders_returned : Nat
  actual_number_of_orders : ℤ
  cod_orders : ℤ
  prepaid_orders : ℤ
  partially_paid_orders : ℤ
  overall_cod_orders : Nat
  overall_prepaid_orders : Nat
  overall_partially_paid_orders : Nat
deriving DecidableEq

def mkOrderRow (orders updates : List OrderRow) (lo hi d : Date) : ORow :=
  let cr := createdAt orders lo hi d
  let rt := returnedAt updates lo hi d
  let oc := distinctCount cr (fun _ => true)
  let orr := distinctCount rt (fun _ => true)
  let codC := distinctCount cr (fun r => pgCOD r.payment_gateway_names)
  let codR := distinctCount rt (fun r => pgCOD r.payment_gateway_names)
  let preC := distinctCount cr (fun r => pgPrepaid r.payment_gateway_names)
  let preR := distinctCount rt (fun r => pgPrepaid r.payment_gateway_names)
  let ppC := distinctCount cr (fun r => pgPPCOD r.payment_gateway_names)
  let ppR := distinctCount rt (fun r => pgPPCOD r.payment_gateway_names)
  { date := d
  , number_of_orders_created := oc
  , number_of_orders_returned := orr
  , actual_number_of_orders := (oc : ℤ) - (orr : ℤ)
  , cod_orders := (codC : ℤ) - (codR : ℤ)
  , prepaid_orders := (preC : ℤ) - (preR : ℤ)
  , partially_paid_orders := (ppC : ℤ) - (ppR : ℤ)
  , overall_cod_orders := codC
  , overall_prepaid_orders := preC
  , overall_partially_paid_orders := ppC }

def orderAllDates (orders updates : List OrderRow) (lo hi : Date) : List Date :=
  dedupL (salesDates orders lo hi ++ returnsDates updates lo hi)

def newOrderRows (orders updates : List OrderRow) (lo hi : Date) : List ORow :=
  (orderAllDates orders updates lo hi).map (mkOrderRow orders updates lo hi)

def updateOrderSummaryIncremental (tbl : List ORow) (orders updates : List OrderRow)
    (lo hi : Date) : List ORow :=
  tbl.filter (fun r => !(inRange lo hi r.date)) ++ newOrderRows orders updates lo hi

/-! ## discount_summary (update_discount_summary_incremental) -/

structure DRow where
  date : Date
  total_discounts_given : ℚ
  total_discount_on_returns : ℚ
  actual_discounts : ℚ
deriving DecidableEq

def discGiven (orders : List OrderRow) (lo hi d : Date) : ℚ :=
  (createdAt orders lo hi d).foldl (fun s r => s + r.discount_amount.getD 0) 0

def discReturned (updates : List OrderRow) (lo hi d : Date) : ℚ :=
  (returnedAt updates lo hi d).foldl (fun s r => s + r.discount_amount.getD 0) 0

def mkDiscountRow (orders updates : List OrderRow) (lo hi d : Date) : DRow :=
  { date := d
  , total_discounts_given := discGiven orders lo hi d
  , total_discount_on_returns := discReturned updates lo hi d
  , actual_discounts := discGiven orders lo hi d - discReturned updates lo hi d }

def newDiscountRows (orders updates : List OrderRow) (lo hi : Date) : List DRow :=
  (orderAllDates orders updates lo hi).map (mkDiscountRow orders updates lo hi)

def updateDiscountSummaryIncremental (tbl : List DRow) (orders updates : List OrderRow)
    (lo hi : Date) : List DRow :=
  tbl.filter (fun r => !(inRange lo hi r.date)) ++ newDiscountRows orders updates lo hi

/-! ## gross_summary (update_gross_summary_incremental) -/

structure GRow where
  date : Date
  overall_sale : ℚ
  shipping_total : ℚ
  discounts_total : ℚ
  tax_total : ℚ
  gross_sales : ℚ
  actual_discounts : ℚ
  net_sales : ℚ
deriving DecidableEq

def lookupDiscount (dtbl : List DRow) (d : Date) : Option DRow :=
  dtbl.find? (fun r => decide (r.date = d))

def mkGrossRow (orders : List OrderRow) (dtbl : List DRow) (lo hi d : Date) : GRow :=
  let cr := createdAt orders lo hi d
  let overall :=
    cr.foldl (fun s r => s + r.line_item_quantity.getD 0 * r.line_item_price.getD 0) 0
  let ship := cr.foldl (fun s r => s + r.shipping_price.getD 0) 0
  let tax := cr.foldl (fun s r => s + r.total_tax.getD 0) 0
  let dg := ((lookupDiscount dtbl d).map (fun r => r.total_discounts_given)).getD 0
  let ad := ((lookupDiscount dtbl d).map (fun r => r.actual_discounts)).getD 0
  { date := d
  , overall_sale := overall
  , shipping_total := ship
  , discounts_total := dg
  , tax_total := tax
  , gross_sales := overall * (84 / 100)
  , actual_discounts := ad
  , net_sales := overall * (84 / 100) - ad }

def newGrossRows (orders : List OrderRow) (dtbl : List DRow) (lo hi : Date) : List GRow :=
  (salesDates orders lo hi).map (mkGrossRow orders dtbl lo hi)

def updateGrossSummaryIncremental (tbl : List GRow) (orders : List OrderRow)
    (dtbl : List DRow) (lo hi : Date) : List GRow :=
  tbl.filter (fun r => !(inRange lo hi r.date)) ++ newGrossRows orders dtbl lo hi

/-! ## hour_wise_sales (update_hour_wise_sales_incremental) -/

structure HSessRow where
  date : Date
  hour : Nat
  number_of_sessions : Nat
  number_of_atc_sessions : Nat
deriving DecidableEq

structure HRow where
  date : Date
  hour : Nat
  number_of_orders : Nat
  total_sales : ℚ
  number_of_prepaid_orders : Nat
  number_of_cod_orders : Nat
  number_of_sessions : Nat
  number_of_atc_sessions : Nat
deriving DecidableEq

/-- The hour-wise COD bucket: this query counts only explicit COD gateway
strings, not NULL or empty ones. -/
def pgCODHour (pg : Option String) : Bool :=
  match pg with
  | none => false
  | some s => likeContains s "Cash on Delivery (COD)" || likeContains s "cash_on_delivery"

def pgPrepaidHour (pg : Option String) : Bool :=
  match pg with
  | none => false
  | some s =>
      decide (s ≠ "") &&
        !(likeContains s "Cash on Delivery (COD)" || likeContains s "cash_on_delivery")

def hourGroups (orders : List OrderRow) (lo hi : Date) : List (Date × Nat) :=
  dedupL
    ((orders.filter (fun r => inRangeOpt lo hi r.created_date && r.created_hour.isSome)).filterMap
      (fun r => r.created_date.bind (fun d => r.created_hour.map (fun h => (d, h)))))

def hourRowsAt (orders : List OrderRow) (lo hi d : Date) (h : Nat) : List OrderRow :=
  orders.filter
    (fun r =>
      inRangeOpt lo hi r.created_date && decide (r.created_date = some d) &&
        decide (r.created_hour = some h))

def mkHourRow (orders : List OrderRow) (hsess : List HSessRow) (lo hi : Date)
    (p : Date × Nat) : HRow :=
  let rows := hourRowsAt orders lo hi p.1 p.2
  let sess := hsess.find? (fun r => decide (r.date = p.1) && decide (r.hour = p.2))
  { date := p.1
  , hour := p.2
  , number_of_orders := distinctCount rows (fun _ => true)
  , total_sales := rows.foldl (fun s r => s + r.total_price.getD 0) 0
  , number_of_prepaid_orders := distinctCount rows (fun r => pgPrepaidHour r.payment_gateway_names)
  , number_of_cod_orders := distinctCount rows (fun r => pgCODHour r.payment_gateway_names)
  , number_of_sessions := ((sess.map (fun r => r.number_of_sessions)).getD 0)
  , number_of_atc_sessions := ((sess.map (fun r => r.number_of_atc_sessions)).getD 0) }

def newHourRows (orders : List OrderRow) (hsess : List HSessRow) (lo hi : Date) : List HRow :=
  (hourGroups orders lo hi).map (mkHourRow orders hsess lo hi)

def updateHourWiseSalesIncremental (tbl : List HRow) (orders : List OrderRow)
    (hsess : List HSessRow) (lo hi : Date) : List HRow :=
  tbl.filter (fun r => !(inRange lo hi r.date)) ++ newHourRows orders hsess lo hi

/-! ## overall_summary (update_overall_summary_incremental) -/

structure SessRow where
  date : Date
  number_of_sessions : Nat
  number_of_atc_sessions : Nat
  adjusted_number_of_sessions : Option Nat
deriving DecidableEq

structure OvRow where
  date : Date
  gross_sales : ℚ
  total_discount_amount : ℚ
  total_sales : ℚ
  net_sales : ℚ
  total_orders : Nat
  cod_orders : Nat
  prepaid_orders : Nat
  partially_paid_orders : Nat
  total_sessions : Nat
  total_atc_sessions : Nat
  adjusted_total_sessions : Nat
deriving DecidableEq

def mkOverallRow (otbl : List ORow) (sess : List SessRow) (gtbl : List GRow)
    (dtbl : List DRow) (s : SSRow) : OvRow :=
  let o := otbl.find? (fun r => decide (r.date = s.date))
  let se := sess.find? (fun r => decide (r.date = s.date))
  let g := gtbl.find? (fun r => decide (r.date = s.date))
  let ds := dtbl.find? (fun r => decide (r.date = s.date))
  { date := s.date
  , gross_sales := ((g.map (fun r => r.gross_sales)).getD 0)
  , total_discount_amount := ((ds.map (fun r => r.actual_discounts)).getD 0)
  , total_sales := s.actual_overall_sales
  , net_sales := ((g.map (fun r => r.net_sales)).getD 0)
  , total_orders := ((o.map (fun r => r.number_of_orders_created)).getD 0)
  , cod_orders := ((o.map (fun r => r.overall_cod_orders)).getD 0)
  , prepaid_orders := ((o.map (fun r => r.overall_prepaid_orders)).getD 0)
  , partially_paid_orders := ((o.map (fun r => r.overall_partially_paid_orders)).getD 0)
  , total_sessions := ((se.map (fun r => r.number_of_sessions)).getD 0)
  , total_atc_sessions := ((se.map (fun r => r.number_of_atc_sessions)).getD 0)
  , adjusted_total_sessions :=
      ((se.map
          (fun r =>
            r.adjusted_number_of_sessions.getD r.number_of_sessions)).getD 0) }

def newOverallRows (stbl : List SSRow) (otbl : List ORow) (sess : List SessRow)
    (gtbl : List GRow) (dtbl : List DRow) (lo hi : Date) : List OvRow :=
  (stbl.filter (fun r => inRange lo hi r.date)).map (mkOverallRow otbl sess gtbl dtbl)

def updateOverallSummaryIncremental (tbl : List OvRow) (stbl : List SSRow)
    (otbl : List ORow) (sess : List SessRow) (gtbl : List GRow) (dtbl : List DRow)
    (lo hi : Date) : List OvRow :=
  tbl.filter (fun r => !(inRange lo hi r.date)) ++
    newOverallRows stbl otbl sess gtbl dtbl lo hi

/-! ## The full incremental recomputation (execute_summary_queries_incremental) -/

structure SummaryDB where
  sales_summary : List SSRow
  order_summary : List ORow
  discount_summary : List DRow
  gross_summary : List GRow
  hour_wise_sales : List HRow
  overall_summary : List OvRow
deriving DecidableEq

structure SourceDB where
  shopify_orders : List OrderRow
  shopify_orders_update : List OrderRow
  returns_fact : List FactRow
  hourly_sessions : List HSessRow
  sessions : List SessRow
deriving DecidableEq

/-- The six incremental updates in their fixed dependency order, the gross
update reading the freshly updated discount table and the overall update
reading the freshly updated sales, order, gross and discount tables. -/
def executeSummaryQueriesIncremental (db : SummaryDB) (src : SourceDB)
    (lo hi : Date) : SummaryDB :=
  let s1 := updateSalesSummaryIncremental db.sales_summary src.shopify_orders
    src.shopify_orders_update src.returns_fact lo hi
  let o1 := updateOrderSummaryIncremental db.order_summary src.shopify_orders
    src.shopify_orders_update lo hi
  let d1 := updateDiscountSummaryIncremental db.discount_summary src.shopify_orders
    src.shopify_orders_update lo hi
  let g1 := updateGrossSummaryIncremental db.gross_summary src.shopify_orders d1 lo hi
  let h1 := updateHourWiseSalesIncremental db.hour_wise_sales src.shopify_orders
    src.hourly_sessions lo hi
  let ov1 := updateOverallSummaryIncremental db.overall_summary s1 o1 src.sessions
    g1 d1 lo hi
  { sales_summary := s1
  , order_summary := o1
  , discount_summary := d1
  , gross_summary := g1
  , hour_wise_sales := h1
  , overall_summary := ov1 }

/-! ## Observation functions used to state the reconciler theorems -/

/-- The total_price values observed for the cancellation key (n, CANCEL, d)
across a batch, in batch order. -/
def cancelObs (b : List Snapshot) (n : Nat) (d : Date) : List ℚ :=
  b.filterMap
    (fun o =>
      match snapId o, parseIsoToIstDate o.cancelled_at with
      | some m, some d2 => if m = n ∧ d2 = d then floatOrZero o.total_price else none
      | _, _ => none)

/-- The positive per-record sums a refund list contributes to day d. -/
def recObs (rfs : List Refund) (d : Date) : List ℚ :=
  rfs.filterMap
    (fun rf =>
      match parseIsoToIstDate rf.created_at with
      | some d2 => if d2 = d ∧ 0 < recSum rf then some (recSum rf) else none
      | none => none)

/-- The positive per-refund-record sums one snapshot contributes to the
refund key (n, REFUND, d). -/
def refundObsOne (o : Snapshot) (n : Nat) (d : Date) : List ℚ :=
  match snapId o with
  | some m => if m = n then recObs o.refunds d else []
  | none => []

def refundObs (b : List Snapshot) (n : Nat) (d : Date) : List ℚ :=
  (b.map (fun o => refundObsOne o n d)).flatten

/-- The claim-side refund sum of one snapshot for one IST day: the sum over
its refund sub-records dated that day of the per-record transaction sums. -/
def daySum (o : Snapshot) (d : Date) : ℚ :=
  (o.refunds.filter (fun rf => decide (parseIsoToIstDate rf.created_at = some d))).foldl
    (fun a rf => a + recSum rf) 0

/-- A raw monetary field holding an exact two-decimal value (or nothing). -/
def centsField : MoneyField → Prop
  | .val q => isCents q
  | _ => True

/-- The exact condition under which the reconciler raises on a snapshot: a
usable id, a parseable cancellation timestamp, and an unparseable
total_price. -/
def cancelRaises (o : Snapshot) : Prop :=
  (snapId o).isSome ∧ (parseIsoToIstDate o.cancelled_at).isSome ∧
    o.total_price = .malformed

/-- Removal of the transactions with unparseable amounts from a refund. -/
def stripTxns (rf : Refund) : Refund :=
  ⟨rf.created_at, rf.txns.filter (fun t => decide (t.amount ≠ .malformed))⟩

def stripSnap (o : Snapshot) : Snapshot :=
  { o with refunds := o.refunds.map stripTxns }

def stripBatch (b : List Snapshot) : List Snapshot := b.map stripSnap

/-! ## Concrete data used to instantiate the theorems -/

def dJan5 : Date := ⟨2024, 1, 5⟩

/-- 2024-01-05T10:00:00Z, whose IST calendar date is still 2024-01-05. -/
def tsJan5 : Ts := ⟨dJan5, 36000⟩

def dFeb10 : Date := ⟨2024, 2, 10⟩

/-- A timestamp during 2024-02-10 whose IST date is 2024-02-10. -/
def tsFeb10 : Ts := ⟨dFeb10, 18000⟩

/-- The spec scenario snapshot: cancelled at 2024-01-05T10:00:00Z with
total_price 500. -/
def snapCancel500 : Snapshot :=
  ⟨some 1, .missing, .missing, .valid tsJan5, .val 500, []⟩

/-- A cancelled snapshot with a negative total_price. -/
def snapCancelNeg : Snapshot :=
  ⟨some 1, .missing, .missing, .valid tsJan5, .val (-5), []⟩

/-- A cancelled snapshot whose total_price does not parse. -/
def snapCancelBad : Snapshot :=
  ⟨some 2, .missing, .missing, .valid tsJan5, .malformed, []⟩

/-- The spec scenario snapshot: two refund sub-records dated 2024-02-10 with
transaction amounts -150 and -50, both of kind refund. -/
def snapRefund200 : Snapshot :=
  ⟨some 7, .missing, .missing, .missing, .missing,
    [⟨.valid tsFeb10, [⟨some "refund", .val (-150)⟩]⟩,
     ⟨.valid tsFeb10, [⟨some "refund", .val (-50)⟩]⟩]⟩

/-- A snapshot with one malformed and one well-formed refund transaction. -/
def snapMixedTxn : Snapshot :=
  ⟨some 9, .missing, .missing, .missing, .missing,
    [⟨.valid tsFeb10, [⟨some "refund", .malformed⟩, ⟨some "refund", .val (-150)⟩]⟩]⟩

def emptyStore : Store := fun _ => none

/-- The fact store after upserting the single fact of snapRefund200. -/
def storeAfter200 : Store := setKey emptyStore (7, .REFUND, dFeb10) 200

/-- A date outside the affected ranges used in the summary instantiations. -/
def dDec1 : Date := ⟨2023, 12, 1⟩

def orow1 : OrderRow :=
  ⟨11, some dJan5, some 10, some dJan5, some "GoKwik", some "paid", some 100,
    some 5, some "Gokwik", some 10, some 18, some 2, some 50⟩

def urow1 : OrderRow :=
  ⟨12, some dJan5, some 9, some dJan5, some "GoKwik", some "refunded", some 80,
    some 0, none, none, none, none, none⟩

def frow1 : FactRow := ⟨1, dJan5, .REFUND, 120⟩

def src0 : SourceDB := ⟨[orow1], [urow1], [frow1], [], []⟩

/-- A stale sales_summary row for 2024-01-05 and one outside row. -/
def ssStale : SSRow := ⟨dJan5, [], 0, 0, 0, 0, 999, 0⟩

def ssOutside : SSRow := ⟨dDec1, [], 0, 0, 0, 0, 77, 0⟩

def db0 : SummaryDB := ⟨[ssOutside, ssStale], [], [], [], [], []⟩

/-- Every summary table holds, at date d, exactly the rows it held before
the run. -/
def rowsUnchangedAt (db dbNew : SummaryDB) (d : Date) : Prop :=
  dbNew.sales_summary.filter (fun r => decide (r.date = d)) =
    db.sales_summary.filter (fun r => decide (r.date = d)) ∧
  dbNew.order_summary.filter (fun r => decide (r.date = d)) =
    db.order_summary.filter (fun r => decide (r.date = d)) ∧
  dbNew.discount_summary.filter (fun r => decide (r.date = d)) =
    db.discount_summary.filter (fun r => decide (r.date = d)) ∧
  dbNew.gross_summary.filter (fun r => decide (r.date = d)) =
    db.gross_summary.filter (fun r => decide (r.date = d)) ∧
  dbNew.hour_wise_sales.filter (fun r => decide (r.date = d)) =
    db.hour_wise_sales.filter (fun r => decide (r.date = d)) ∧
  dbNew.overall_summary.filter (fun r => decide (r.date = d)) =
    db.overall_summary.filter (fun r => decide (r.date = d))

/-- Every summary table holds, at date d, exactly the freshly recomputed
rows: every pre-existing row for d was deleted and replaced. -/
def rowsFreshAt (db dbNew : SummaryDB) (src : SourceDB) (lo hi d : Date) : Prop :=
  dbNew.sales_summary.filter (fun r => decide (r.date = d)) =
    (newSalesRows src.shopify_orders src.shopify_orders_update src.returns_fact
        lo hi).filter (fun r => decide (r.date = d)) ∧
  dbNew.order_summary.filter (fun r => decide (r.date = d)) =
    (newOrderRows src.shopify_orders src.shopify_orders_update lo hi).filter
      (fun r => decide (r.date = d)) ∧
  dbNew.discount_summary.filter (fun r => decide (r.date = d)) =
    (newDiscountRows src.shopify_orders src.shopify_orders_update lo hi).filter
      (fun r => decide (r.date = d)) ∧
  dbNew.gross_summary.filter (fun r => decide (r.date = d)) =
    (newGrossRows src.shopify_orders
        (updateDiscountSummaryIncremental db.discount_summary src.shopify_orders
          src.shopify_orders_update lo hi) lo hi).filter
      (fun r => decide (r.date = d)) ∧
  dbNew.hour_wise_sales.filter (fun r => decide (r.date = d)) =
    (newHourRows src.shopify_orders src.hourly_sessions lo hi).filter
      (fun r => decide (r.date = d)) ∧
  dbNew.overall_summary.filter (fun r => decide (r.date = d)) =
    (newOverallRows
        (updateSalesSummaryIncremental db.sales_summary src.shopify_orders
          src.shopify_orders_update src.returns_fact lo hi)
        (updateOrderSummaryIncremental db.order_summary src.shopify_orders
          src.shopify_orders_update lo hi)
        src.sessions
        (updateGrossSummaryIncremental db.gross_summary src.shopify_orders
          (updateDiscountSummaryIncremental db.discount_summary src.shopify_orders
            src.shopify_orders_update lo hi) lo hi)
        (updateDiscountSummaryIncremental db.discount_summary src.shopify_orders
          src.shopify_orders_update lo hi)
        lo hi).filter (fun r => decide (r.date = d))

end Dashboard

namespace Dashboard

/-! ## Lemmas about the aggregation dictionary -/

theorem lookupAgg_nil (k : FactKey) : lookupAgg [] k = none := rfl

theorem lookupAgg_of_any_false {agg : Agg} {k : FactKey}
    (h : agg.any (fun p => decide (p.1 = k)) = false) : lookupAgg agg k = none := by
  induction agg with
  | nil => rfl
  | cons p rest ih =>
    simp only [List.any_cons, Bool.or_eq_false_iff, decide_eq_false_iff_not] at h
    simp only [lookupAgg, if_neg h.1]
    exact ih (by simpa using h.2)

theorem lookupAgg_of_any_true {agg : Agg} {k : FactKey}
    (h : agg.any (fun p => decide (p.1 = k)) = true) :
    ∃ v, lookupAgg agg k = some v := by
  induction agg with
  | nil => simp at h
  | cons p rest ih =>
    by_cases hp : p.1 = k
    · exact ⟨p.2, by simp [lookupAgg, hp]⟩
    · simp only [lookupAgg, if_neg hp]
      simp only [List.any_cons, Bool.or_eq_true, decide_eq_true_eq] at h
      rcases h with h | h
      · exact absurd h hp
      · exact ih h

theorem lookupAgg_map_upd (agg : Agg) (k k' : FactKey) (f : ℚ → ℚ) :
    lookupAgg (agg.map (fun p => if p.1 = k then (p.1, f p.2) else p)) k' =
      if k' = k then (lookupAgg agg k).map f else lookupAgg agg k' := by
  induction agg with
  | nil => by_cases h : k' = k <;> simp [lookupAgg, h]
  | cons p rest ih =>
    by_cases hp : p.1 = k
    · by_cases hk : k' = k
      · subst hk
        simp [lookupAgg, hp, ih]
      · have hpk : ¬ p.1 = k' := by rw [hp]; exact fun h => hk h.symm
        have hkk : ¬ k = k' := fun h => hk h.symm
        simp [lookupAgg, hp, hpk, ih, hk, hkk]
    · by_cases hq : p.1 = k'
      · have hk : ¬ (k' = k) := fun h => hp (h ▸ hq)
        simp [lookupAgg, hp, hq, hk]
      · simp [lookupAgg, hp, hq, ih]

theorem lookupAgg_append_single (agg : Agg) (k k' : FactKey) (v : ℚ) :
    lookupAgg (agg ++ [(k, v)]) k' =
      match lookupAgg agg k' with
      | some w => some w
      | none => if k' = k then some v else none := by
  induction agg with
  | nil =>
    by_cases h : k' = k
    · subst h; simp [lookupAgg]
    · have : ¬ (k, v).1 = k' := fun hh => h hh.symm
      simp [lookupAgg, this, h]
  | cons p rest ih =>
    by_cases hp : p.1 = k'
    · simp [lookupAgg, hp]
    · simp only [List.cons_append, lookupAgg, if_neg hp]
      exact ih

theorem lookupAgg_updAgg (agg : Agg) (k k' : FactKey) (f : ℚ → ℚ) :
    lookupAgg (updAgg agg k f) k' =
      if k' = k then some (f ((lookupAgg agg k).getD 0)) else lookupAgg agg k' := by
  unfold updAgg
  by_cases ha : agg.any (fun p => decide (p.1 = k)) = true
  · rw [if_pos ha, lookupAgg_map_upd]
    rcases lookupAgg_of_any_true ha with ⟨v, hv⟩
    by_cases hk : k' = k
    · rw [if_pos hk, if_pos hk, hv]
      rfl
    · rw [if_neg hk, if_neg hk]
  · rw [if_neg ha, lookupAgg_append_single]
    have hnone : lookupAgg agg k = none :=
      lookupAgg_of_any_false (Bool.eq_false_iff.mpr ha)
    by_cases hk : k' = k
    · subst hk
      rw [hnone]
      simp
    · rw [if_neg hk, if_neg hk]
      cases h : lookupAgg agg k' <;> simp

end Dashboard

namespace Dashboard

/-! ## Key sets and uniqueness of aggregation keys -/

theorem lookupAgg_none_of_not_mem {agg : Agg} {k : FactKey}
    (h : k ∉ agg.map (fun p => p.1)) : lookupAgg agg k = none := by
  induction agg with
  | nil => rfl
  | cons p rest ih =>
    simp only [List.map_cons, List.mem_cons, not_or] at h
    simp only [lookupAgg, if_neg (fun hp : p.1 = k => h.1 hp.symm)]
    exact ih h.2

theorem keys_updAgg_of_any_true {agg : Agg} {k : FactKey} {f : ℚ → ℚ}
    (h : agg.any (fun p => decide (p.1 = k)) = true) :
    (updAgg agg k f).map (fun p => p.1) = agg.map (fun p => p.1) := by
  unfold updAgg
  rw [if_pos h, List.map_map]
  refine List.map_congr_left (fun p _ => ?_)
  by_cases hp : p.1 = k <;> simp [hp]

theorem keys_updAgg_of_any_false {agg : Agg} {k : FactKey} {f : ℚ → ℚ}
    (h : agg.any (fun p => decide (p.1 = k)) = false) :
    (updAgg agg k f).map (fun p => p.1) = agg.map (fun p => p.1) ++ [k] := by
  unfold updAgg
  rw [if_neg (by rw [h]; exact Bool.false_ne_true)]
  simp

theorem nodup_keys_updAgg {agg : Agg} {k : FactKey} {f : ℚ → ℚ}
    (h : (agg.map (fun p => p.1)).Nodup) :
    ((updAgg agg k f).map (fun p => p.1)).Nodup := by
  cases ha : agg.any (fun p => decide (p.1 = k)) with
  | true => rw [keys_updAgg_of_any_true ha]; exact h
  | false =>
    rw [keys_updAgg_of_any_false ha]
    have hk : k ∉ agg.map (fun p => p.1) := by
      intro hmem
      rcases List.mem_map.mp hmem with ⟨p, hp, hpk⟩
      have : agg.any (fun p => decide (p.1 = k)) = true :=
        List.any_eq_true.mpr ⟨p, hp, by simp [hpk]⟩
      rw [ha] at this
      exact Bool.false_ne_true this
    simp only [List.nodup_append, List.nodup_cons, List.nodup_nil]
    exact ⟨h, ⟨by simp, trivial⟩, by simpa [List.disjoint_singleton] using hk⟩

theorem refundStep_cons (agg : Agg) (n : Nat) (rf : Refund) (rest : List Refund) :
    refundStep agg n (rf :: rest) =
      refundStep
        (match parseIsoToIstDate rf.created_at with
         | none => agg
         | some d =>
           if 0 < recSum rf then updAgg agg (n, .REFUND, d) (fun cur => cur + recSum rf)
           else agg) n rest := rfl

theorem refundStep_cons_skip (agg : Agg) (n : Nat) {rf : Refund} (rest : List Refund)
    (h : parseIsoToIstDate rf.created_at = none) :
    refundStep agg n (rf :: rest) = refundStep agg n rest := by
  rw [refundStep_cons, h]

theorem refundStep_cons_pos (agg : Agg) (n : Nat) {rf : Refund} (rest : List Refund)
    {d : Date} (h : parseIsoToIstDate rf.created_at = some d) (hpos : 0 < recSum rf) :
    refundStep agg n (rf :: rest) =
      refundStep (updAgg agg (n, .REFUND, d) (fun cur => cur + recSum rf)) n rest := by
  rw [refundStep_cons, h]
  simp [hpos]

theorem refundStep_cons_neg (agg : Agg) (n : Nat) {rf : Refund} (rest : List Refund)
    {d : Date} (h : parseIsoToIstDate rf.created_at = some d) (hpos : ¬ 0 < recSum rf) :
    refundStep agg n (rf :: rest) = refundStep agg n rest := by
  rw [refundStep_cons, h]
  simp [hpos]

theorem nodup_keys_refundStep {agg : Agg} {n : Nat} {rfs : List Refund}
    (h : (agg.map (fun p => p.1)).Nodup) :
    ((refundStep agg n rfs).map (fun p => p.1)).Nodup := by
  induction rfs generalizing agg with
  | nil => exact h
  | cons rf rest ih =>
    cases hpd : parseIsoToIstDate rf.created_at with
    | none =>
      rw [refundStep_cons_skip agg n rest hpd]
      exact ih h
    | some d =>
      by_cases hpos : 0 < recSum rf
      · rw [refundStep_cons_pos agg n rest hpd hpos]
        exact ih (nodup_keys_updAgg h)
      · rw [refundStep_cons_neg agg n rest hpd hpos]
        exact ih h

theorem nodup_keys_processOrder {agg agg' : Agg} {o : Snapshot}
    (hpo : processOrder agg o = some agg')
    (h : (agg.map (fun p => p.1)).Nodup) :
    (agg'.map (fun p => p.1)).Nodup := by
  unfold processOrder at hpo
  cases hid : snapId o with
  | none => simp only [hid] at hpo; cases hpo; exact h
  | some n =>
    simp only [hid] at hpo
    cases hcs : cancelStep agg n o with
    | none => simp only [hcs] at hpo; cases hpo
    | some agg1 =>
      simp only [hcs, Option.some.injEq] at hpo
      subst hpo
      have h1 : (agg1.map (fun p => p.1)).Nodup := by
        unfold cancelStep at hcs
        cases hpc : parseIsoToIstDate o.cancelled_at with
        | none =>
          simp only [hpc] at hcs
          cases hcs
          exact h
        | some d =>
          simp only [hpc] at hcs
          cases hfz : floatOrZero o.total_price with
          | none => simp only [hfz] at hcs; cases hcs
          | some amt =>
            simp only [hfz, Option.some.injEq] at hcs
            rw [← hcs]
            exact nodup_keys_updAgg h
      exact nodup_keys_refundStep h1

theorem nodup_keys_processAll {agg agg' : Agg} {b : List Snapshot}
    (hpa : processAll agg b = some agg')
    (h : (agg.map (fun p => p.1)).Nodup) :
    (agg'.map (fun p => p.1)).Nodup := by
  induction b generalizing agg with
  | nil => cases hpa; exact h
  | cons o rest ih =>
    unfold processAll at hpa
    cases hpo : processOrder agg o with
    | none => rw [hpo] at hpa; cases hpa
    | some agg1 =>
      rw [hpo] at hpa
      exact ih hpa (nodup_keys_processOrder hpo h)

theorem filter_key_of_nodup {agg : Agg} (k : FactKey)
    (h : (agg.map (fun p => p.1)).Nodup) :
    agg.filter (fun p => decide (p.1 = k)) =
      match lookupAgg agg k with
      | none => []
      | some v => [(k, v)] := by
  induction agg with
  | nil => rfl
  | cons p rest ih =>
    simp only [List.map_cons, List.nodup_cons] at h
    by_cases hp : p.1 = k
    · have hk : k ∉ rest.map (fun p => p.1) := hp ▸ h.1
      have hrest : rest.filter (fun p => decide (p.1 = k)) = [] := by
        rw [ih h.2, lookupAgg_none_of_not_mem hk]
      simp only [lookupAgg, if_pos hp, List.filter_cons, decide_eq_true hp, hrest]
      have hpk : p = (k, p.2) := Prod.ext hp rfl
      rw [hpk]
      simp
    · simp only [lookupAgg, if_neg hp, List.filter_cons, decide_eq_false hp]
      exact ih h.2

end Dashboard

namespace Dashboard

/-! ## Per-key evolution of the aggregation across a batch -/

theorem lookupAgg_refundStep_cancel (agg : Agg) (m : Nat) (rfs : List Refund)
    (n : Nat) (d : Date) :
    lookupAgg (refundStep agg m rfs) (n, .CANCEL, d) = lookupAgg agg (n, .CANCEL, d) := by
  induction rfs generalizing agg with
  | nil => rfl
  | cons rf rest ih =>
    cases hpd : parseIsoToIstDate rf.created_at with
    | none => rw [refundStep_cons_skip agg m rest hpd]; exact ih agg
    | some d2 =>
      by_cases hpos : 0 < recSum rf
      · rw [refundStep_cons_pos agg m rest hpd hpos, ih, lookupAgg_updAgg,
          if_neg (by simp)]
      · rw [refundStep_cons_neg agg m rest hpd hpos]; exact ih agg

theorem lookupAgg_refundStep_ne (agg : Agg) (m : Nat) (rfs : List Refund)
    (n : Nat) (d : Date) (hmn : m ≠ n) :
    lookupAgg (refundStep agg m rfs) (n, .REFUND, d) = lookupAgg agg (n, .REFUND, d) := by
  induction rfs generalizing agg with
  | nil => rfl
  | cons rf rest ih =>
    cases hpd : parseIsoToIstDate rf.created_at with
    | none => rw [refundStep_cons_skip agg m rest hpd]; exact ih agg
    | some d2 =>
      by_cases hpos : 0 < recSum rf
      · rw [refundStep_cons_pos agg m rest hpd hpos, ih, lookupAgg_updAgg,
          if_neg (by simp [Prod.ext_iff]; intro hn; exact absurd hn.symm hmn)]
      · rw [refundStep_cons_neg agg m rest hpd hpos]; exact ih agg

theorem recObs_cons_skip {rf : Refund} (rest : List Refund) (d : Date)
    (h : parseIsoToIstDate rf.created_at = none) :
    recObs (rf :: rest) d = recObs rest d := by
  simp [recObs, List.filterMap_cons, h]

theorem recObs_cons_hit {rf : Refund} (rest : List Refund) {d : Date}
    (h : parseIsoToIstDate rf.created_at = some d) (hpos : 0 < recSum rf) :
    recObs (rf :: rest) d = recSum rf :: recObs rest d := by
  simp [recObs, List.filterMap_cons, h, hpos]

theorem recObs_cons_othermiss {rf : Refund} (rest : List Refund) {d d2 : Date}
    (h : parseIsoToIstDate rf.created_at = some d2)
    (hmiss : ¬ (d2 = d ∧ 0 < recSum rf)) :
    recObs (rf :: rest) d = recObs rest d := by
  simp [recObs, List.filterMap_cons, h, hmiss]

/-- Composition of two fold-update phases on one key into one phase. -/
theorem obsChain (f : ℚ → ℚ → ℚ) (l : Option ℚ) (o1 o2 : List ℚ) :
    (if o2 = [] then (if o1 = [] then l else some (o1.foldl f (l.getD 0)))
     else
       some (o2.foldl f
         ((if o1 = [] then l else some (o1.foldl f (l.getD 0))).getD 0))) =
      if (o1 ++ o2) = [] then l else some ((o1 ++ o2).foldl f (l.getD 0)) := by
  by_cases h1 : o1 = []
  · subst h1
    by_cases h2 : o2 = [] <;> simp [h2]
  · by_cases h2 : o2 = []
    · subst h2
      simp [h1]
    · have hne : ¬ (o1 ++ o2 = []) := by simp [h1]
      rw [if_neg h2, if_neg h1, if_neg hne, List.foldl_append]
      simp

theorem lookupAgg_refundStep_self (agg : Agg) (n : Nat) (rfs : List Refund) (d : Date) :
    lookupAgg (refundStep agg n rfs) (n, .REFUND, d) =
      (if recObs rfs d = [] then lookupAgg agg (n, .REFUND, d)
       else
         some ((recObs rfs d).foldl (fun a s => a + s)
           ((lookupAgg agg (n, .REFUND, d)).getD 0))) := by
  induction rfs generalizing agg with
  | nil => simp [recObs, refundStep]
  | cons rf rest ih =>
    cases hpd : parseIsoToIstDate rf.created_at with
    | none =>
      rw [refundStep_cons_skip agg n rest hpd, recObs_cons_skip rest d hpd]
      exact ih agg
    | some d2 =>
      by_cases hpos : 0 < recSum rf
      · by_cases hd : d2 = d
        · subst hd
          rw [refundStep_cons_pos agg n rest hpd hpos, recObs_cons_hit rest hpd hpos,
            ih, lookupAgg_updAgg, if_pos rfl]
          have := obsChain (fun a s => a + s) (lookupAgg agg (n, .REFUND, d2))
            [recSum rf] (recObs rest d2)
          simp only [List.singleton_append] at this
          rw [← this]
          simp
        · rw [refundStep_cons_pos agg n rest hpd hpos,
            recObs_cons_othermiss rest hpd (fun hc => hd hc.1), ih, lookupAgg_updAgg,
            if_neg (fun hEq => hd ((congrArg (fun k : FactKey => k.2.2) hEq).symm))]
      · rw [refundStep_cons_neg agg n rest hpd hpos,
          recObs_cons_othermiss rest hpd (fun hc => hpos hc.2)]
        exact ih agg

theorem cancelStep_refund_lookup {agg agg' : Agg} {m : Nat} {o : Snapshot}
    (h : cancelStep agg m o = some agg') (n : Nat) (d : Date) :
    lookupAgg agg' (n, .REFUND, d) = lookupAgg agg (n, .REFUND, d) := by
  unfold cancelStep at h
  cases hpc : parseIsoToIstDate o.cancelled_at with
  | none => simp only [hpc] at h; cases h; rfl
  | some dc =>
    simp only [hpc] at h
    cases hfz : floatOrZero o.total_price with
    | none => simp only [hfz] at h; cases h
    | some amt =>
      simp only [hfz, Option.some.injEq] at h
      rw [← h, lookupAgg_updAgg, if_neg (by simp)]

end Dashboard

namespace Dashboard

theorem cancelObs_cons_noid {o : Snapshot} (rest : List Snapshot) (n : Nat) (d : Date)
    (hid : snapId o = none) :
    cancelObs (o :: rest) n d = cancelObs rest n d := by
  simp [cancelObs, List.filterMap_cons, hid]

theorem cancelObs_cons_nodate {o : Snapshot} (rest : List Snapshot) (n : Nat) (d : Date)
    {m : Nat} (hid : snapId o = some m)
    (hpc : parseIsoToIstDate o.cancelled_at = none) :
    cancelObs (o :: rest) n d = cancelObs rest n d := by
  simp [cancelObs, List.filterMap_cons, hid, hpc]

theorem cancelObs_cons_miss {o : Snapshot} (rest : List Snapshot) (n : Nat) (d : Date)
    {m : Nat} {dc : Date} (hid : snapId o = some m)
    (hpc : parseIsoToIstDate o.cancelled_at = some dc)
    (hmd : ¬ (m = n ∧ dc = d)) :
    cancelObs (o :: rest) n d = cancelObs rest n d := by
  simp [cancelObs, List.filterMap_cons, hid, hpc, hmd]

theorem cancelObs_cons_hit {o : Snapshot} (rest : List Snapshot) {n : Nat} {d : Date}
    {amt : ℚ} (hid : snapId o = some n)
    (hpc : parseIsoToIstDate o.cancelled_at = some d)
    (hfz : floatOrZero o.total_price = some amt) :
    cancelObs (o :: rest) n d = amt :: cancelObs rest n d := by
  simp [cancelObs, List.filterMap_cons, hid, hpc, hfz]

/-- The value stored for a cancellation key after a whole batch: the fold of
max over the observed total prices, started from the prior value or zero. -/
theorem processAll_cancel_lookup {b : List Snapshot} {agg agg' : Agg}
    (h : processAll agg b = some agg') (n : Nat) (d : Date) :
    lookupAgg agg' (n, .CANCEL, d) =
      (if cancelObs b n d = [] then lookupAgg agg (n, .CANCEL, d)
       else
         some ((cancelObs b n d).foldl max ((lookupAgg agg (n, .CANCEL, d)).getD 0))) := by
  induction b generalizing agg with
  | nil =>
    cases h
    simp [cancelObs]
  | cons o rest ih =>
    unfold processAll at h
    cases hpo : processOrder agg o with
    | none => simp only [hpo] at h; exact Option.noConfusion h
    | some agg1 =>
      simp only [hpo] at h
      unfold processOrder at hpo
      cases hid : snapId o with
      | none =>
        simp only [hid, Option.some.injEq] at hpo
        subst hpo
        rw [cancelObs_cons_noid rest n d hid]
        exact ih h
      | some m =>
        simp only [hid] at hpo
        cases hcs : cancelStep agg m o with
        | none => simp only [hcs] at hpo; exact Option.noConfusion hpo
        | some agg2 =>
          simp only [hcs, Option.some.injEq] at hpo
          have hframe : lookupAgg agg1 (n, .CANCEL, d) = lookupAgg agg2 (n, .CANCEL, d) := by
            rw [← hpo, lookupAgg_refundStep_cancel]
          unfold cancelStep at hcs
          cases hpc : parseIsoToIstDate o.cancelled_at with
          | none =>
            simp only [hpc] at hcs
            cases hcs
            rw [cancelObs_cons_nodate rest n d hid hpc]
            rw [ih h, hframe]
          | some dc =>
            simp only [hpc] at hcs
            cases hfz : floatOrZero o.total_price with
            | none => simp only [hfz] at hcs; cases hcs
            | some amt =>
              simp only [hfz, Option.some.injEq] at hcs
              by_cases hmd : m = n ∧ dc = d
              · rcases hmd with ⟨hm, hdc⟩
                subst hm; subst hdc
                rw [cancelObs_cons_hit rest hid hpc hfz]
                have hl2 : lookupAgg agg2 (m, .CANCEL, dc) =
                    some (max ((lookupAgg agg (m, .CANCEL, dc)).getD 0) amt) := by
                  rw [← hcs, lookupAgg_updAgg, if_pos rfl]
                rw [ih h, hframe, hl2]
                have := obsChain max (lookupAgg agg (m, .CANCEL, dc)) [amt]
                  (cancelObs rest m dc)
                simp only [List.singleton_append] at this
                rw [← this]
                simp
              · rw [cancelObs_cons_miss rest n d hid hpc hmd]
                have hl2 : lookupAgg agg2 (n, .CANCEL, d) = lookupAgg agg (n, .CANCEL, d) := by
                  rw [← hcs, lookupAgg_updAgg,
                    if_neg (fun hEq => hmd ⟨(congrArg (fun k : FactKey => k.1) hEq).symm,
                      (congrArg (fun k : FactKey => k.2.2) hEq).symm⟩)]
                rw [ih h, hframe, hl2]

theorem refundObs_cons (o : Snapshot) (rest : List Snapshot) (n : Nat) (d : Date) :
    refundObs (o :: rest) n d = refundObsOne o n d ++ refundObs rest n d := by
  simp [refundObs]

/-- The value stored for a refund key after a whole batch: the running sum of
the observed positive per-record refund sums, started from the prior value
or zero. -/
theorem processAll_refund_lookup {b : List Snapshot} {agg agg' : Agg}
    (h : processAll agg b = some agg') (n : Nat) (d : Date) :
    lookupAgg agg' (n, .REFUND, d) =
      (if refundObs b n d = [] then lookupAgg agg (n, .REFUND, d)
       else
         some ((refundObs b n d).foldl (fun a s => a + s)
           ((lookupAgg agg (n, .REFUND, d)).getD 0))) := by
  induction b generalizing agg with
  | nil =>
    cases h
    simp [refundObs]
  | cons o rest ih =>
    unfold processAll at h
    cases hpo : processOrder agg o with
    | none => simp only [hpo] at h; exact Option.noConfusion h
    | some agg1 =>
      simp only [hpo] at h
      unfold processOrder at hpo
      cases hid : snapId o with
      | none =>
        simp only [hid, Option.some.injEq] at hpo
        subst hpo
        rw [refundObs_cons, ih h]
        simp [refundObsOne, hid]
      | some m =>
        simp only [hid] at hpo
        cases hcs : cancelStep agg m o with
        | none => simp only [hcs] at hpo; exact Option.noConfusion hpo
        | some agg2 =>
          simp only [hcs, Option.some.injEq] at hpo
          have hl2 : lookupAgg agg2 (n, .REFUND, d) = lookupAgg agg (n, .REFUND, d) :=
            cancelStep_refund_lookup hcs n d
          by_cases hm : m = n
          · subst hm
            have hone : refundObsOne o m d = recObs o.refunds d := by
              simp [refundObsOne, hid]
            have hl1 : lookupAgg agg1 (m, .REFUND, d) =
                (if recObs o.refunds d = [] then lookupAgg agg (m, .REFUND, d)
                 else
                   some ((recObs o.refunds d).foldl (fun a s => a + s)
                     ((lookupAgg agg (m, .REFUND, d)).getD 0))) := by
              rw [← hpo, lookupAgg_refundStep_self, hl2]
            rw [refundObs_cons, hone, ih h, hl1]
            exact obsChain (fun a s => a + s) (lookupAgg agg (m, .REFUND, d))
              (recObs o.refunds d) (refundObs rest m d)
          · have hone : refundObsOne o n d = [] := by
              simp [refundObsOne, hid, hm]
            have hl1 : lookupAgg agg1 (n, .REFUND, d) = lookupAgg agg (n, .REFUND, d) := by
              rw [← hpo, lookupAgg_refundStep_ne agg2 m o.refunds n d hm, hl2]
            rw [refundObs_cons, hone, ih h, hl1]
            simp

end Dashboard

namespace Dashboard

/-! ## From the aggregation to the executemany rows -/

theorem filter_key_map_round (agg : Agg) (k : FactKey) :
    (agg.map (fun p => (p.1, round2 p.2))).filter (fun p => decide (p.1 = k)) =
      (agg.filter (fun p => decide (p.1 = k))).map (fun p => (p.1, round2 p.2)) := by
  induction agg with
  | nil => rfl
  | cons p rest ih =>
    by_cases hp : p.1 = k <;> simp [List.filter_cons, hp, ih]

theorem deriveRows_filter {b : List Snapshot} {rows : List (FactKey × ℚ)}
    (h : deriveRows b = some rows) (k : FactKey) :
    ∃ agg', deriveAgg b = some agg' ∧
      rows.filter (fun p => decide (p.1 = k)) =
        (match lookupAgg agg' k with
         | none => []
         | some v => [(k, round2 v)]) := by
  unfold deriveRows at h
  cases hda : deriveAgg b with
  | none => rw [hda] at h; cases h
  | some agg' =>
    rw [hda] at h
    simp only [Option.map_some', Option.some.injEq] at h
    refine ⟨agg', rfl, ?_⟩
    have hnd : (agg'.map (fun p => p.1)).Nodup :=
      @nodup_keys_processAll [] agg' b hda List.nodup_nil
    rw [← h, filter_key_map_round, filter_key_of_nodup k hnd]
    cases lookupAgg agg' k <;> simp

/-! ## Exact two-decimal arithmetic -/

theorem isCents_zero : isCents 0 := ⟨0, by norm_num⟩

theorem isCents_add {a b : ℚ} (ha : isCents a) (hb : isCents b) : isCents (a + b) := by
  rcases ha with ⟨x, hx⟩
  rcases hb with ⟨y, hy⟩
  exact ⟨x + y, by rw [hx, hy]; push_cast; ring⟩

theorem isCents_abs {a : ℚ} (ha : isCents a) : isCents |a| := by
  rcases ha with ⟨x, hx⟩
  refine ⟨|x|, ?_⟩
  rw [hx, abs_div]
  push_cast
  norm_num

theorem isCents_max {a b : ℚ} (ha : isCents a) (hb : isCents b) : isCents (max a b) := by
  rcases le_total a b with h | h
  · rw [max_eq_right h]; exact hb
  · rw [max_eq_left h]; exact ha

theorem round2_cents {q : ℚ} (h : isCents q) : round2 q = q := by
  rcases h with ⟨n, hn⟩
  subst hn
  have h100 : ((n : ℚ) / 100) * 100 = (n : ℚ) := by
    field_simp
  unfold round2 roundHalfEven
  rw [h100]
  have hfl : ⌊(n : ℚ)⌋ = n := Int.floor_intCast n
  rw [hfl]
  simp

/-! ## Transaction sums -/

theorem recSum_nonneg (rf : Refund) : 0 ≤ recSum rf := by
  unfold recSum
  have haux : ∀ (ts : List Txn) (init : ℚ), 0 ≤ init →
      0 ≤ ts.foldl
        (fun s t =>
          if kindOk t then
            match t.amount with
            | .missing => s + |(0 : ℚ)|
            | .malformed => s
            | .val q => s + |q|
          else s) init := by
    intro ts
    induction ts with
    | nil => intro init h; exact h
    | cons t rest ih =>
      intro init h
      simp only [List.foldl_cons]
      by_cases hk : kindOk t
      · rw [if_pos hk]
        cases t.amount with
        | missing => exact ih _ (le_add_of_le_of_nonneg h (abs_nonneg _))
        | malformed => exact ih _ h
        | val q => exact ih _ (le_add_of_le_of_nonneg h (abs_nonneg _))
      · rw [if_neg hk]
        exact ih _ h
  exact haux rf.txns 0 le_rfl

theorem recSum_cents (rf : Refund) (h : ∀ t ∈ rf.txns, centsField t.amount) :
    isCents (recSum rf) := by
  unfold recSum
  have haux : ∀ (ts : List Txn), (∀ t ∈ ts, centsField t.amount) →
      ∀ (init : ℚ), isCents init →
      isCents (ts.foldl
        (fun s t =>
          if kindOk t then
            match t.amount with
            | .missing => s + |(0 : ℚ)|
            | .malformed => s
            | .val q => s + |q|
          else s) init) := by
    intro ts
    induction ts with
    | nil => intro _ init h; exact h
    | cons t rest ih =>
      intro hts init hinit
      simp only [List.foldl_cons]
      have ht := hts t (List.mem_cons_self t rest)
      have hrest := fun t' ht' => hts t' (List.mem_cons_of_mem t ht')
      by_cases hk : kindOk t
      · rw [if_pos hk]
        cases ham : t.amount with
        | missing => exact ih hrest _ (isCents_add hinit (by rw [abs_zero]; exact isCents_zero))
        | malformed => exact ih hrest _ hinit
        | val q =>
          rw [ham] at ht
          exact ih hrest _ (isCents_add hinit (isCents_abs ht))
      · rw [if_neg hk]
        exact ih hrest _ hinit
  exact haux rf.txns h 0 isCents_zero

theorem foldl_add_eq (c : ℚ) (l : List ℚ) :
    l.foldl (fun a s => a + s) c = c + l.sum := by
  induction l generalizing c with
  | nil => simp
  | cons x xs ih => simp [List.foldl_cons, ih, add_assoc]

theorem foldl_add_map {α : Type} (f : α → ℚ) (c : ℚ) (l : List α) :
    l.foldl (fun a x => a + f x) c = c + (l.map f).sum := by
  induction l generalizing c with
  | nil => simp
  | cons x xs ih => simp [List.foldl_cons, ih, add_assoc]

theorem daySum_eq_sum (o : Snapshot) (d : Date) :
    daySum o d =
      ((o.refunds.filter
          (fun rf => decide (parseIsoToIstDate rf.created_at = some d))).map recSum).sum := by
  unfold daySum
  rw [foldl_add_map]
  simp

theorem recObs_sum (rfs : List Refund) (d : Date) :
    (recObs rfs d).sum =
      ((rfs.filter (fun rf => decide (parseIsoToIstDate rf.created_at = some d))).map
        recSum).sum := by
  induction rfs with
  | nil => rfl
  | cons rf rest ih =>
    cases hpd : parseIsoToIstDate rf.created_at with
    | none =>
      rw [recObs_cons_skip rest d hpd]
      have : ¬ (parseIsoToIstDate rf.created_at = some d) := by rw [hpd]; exact fun h => Option.noConfusion h
      simp [List.filter_cons, this, ih]
    | some d2 =>
      by_cases hd : d2 = d
      · subst hd
        by_cases hpos : 0 < recSum rf
        · rw [recObs_cons_hit rest hpd hpos]
          simp [List.filter_cons, hpd, List.sum_cons, ih]
        · rw [recObs_cons_othermiss rest hpd (fun hc => hpos hc.2)]
          have hz : recSum rf = 0 := le_antisymm (not_lt.mp hpos) (recSum_nonneg rf)
          simp [List.filter_cons, hpd, List.sum_cons, ih, hz]
      · rw [recObs_cons_othermiss rest hpd (fun hc => hd hc.1)]
        have : ¬ (parseIsoToIstDate rf.created_at = some d) := by
          rw [hpd]
          intro h
          exact hd (Option.some.inj h)
        simp [List.filter_cons, this, ih]

theorem recObs_pos (rfs : List Refund) (d : Date) :
    ∀ x ∈ recObs rfs d, 0 < x := by
  intro x hx
  rcases List.mem_filterMap.mp hx with ⟨rf, _, hrf⟩
  cases hpd : parseIsoToIstDate rf.created_at with
  | none => simp only [hpd] at hrf; exact Option.noConfusion hrf
  | some d2 =>
    simp only [hpd] at hrf
    by_cases hc : d2 = d ∧ 0 < recSum rf
    · rw [if_pos hc] at hrf
      cases hrf
      exact hc.2
    · rw [if_neg hc] at hrf
      cases hrf

theorem daySum_pos_iff (o : Snapshot) (d : Date) :
    0 < daySum o d ↔ recObs o.refunds d ≠ [] := by
  rw [daySum_eq_sum, ← recObs_sum]
  constructor
  · intro hpos hnil
    rw [hnil] at hpos
    simp at hpos
  · intro hne
    exact List.sum_pos _ (recObs_pos o.refunds d) hne

theorem daySum_cents (o : Snapshot) (d : Date)
    (h : ∀ rf ∈ o.refunds, ∀ t ∈ rf.txns, centsField t.amount) :
    isCents (daySum o d) := by
  rw [daySum_eq_sum]
  have : ∀ rfs : List Refund, (∀ rf ∈ rfs, ∀ t ∈ rf.txns, centsField t.amount) →
      isCents (((rfs.filter
        (fun rf => decide (parseIsoToIstDate rf.created_at = some d))).map recSum).sum) := by
    intro rfs
    induction rfs with
    | nil => intro _; simpa using isCents_zero
    | cons rf rest ih =>
      intro hr
      have h1 := hr rf (List.mem_cons_self rf rest)
      have h2 := fun rf' hrf' => hr rf' (List.mem_cons_of_mem rf hrf')
      by_cases hf : parseIsoToIstDate rf.created_at = some d
      · simp only [List.filter_cons, decide_eq_true hf, List.map_cons, List.sum_cons]
        exact isCents_add (recSum_cents rf h1) (ih h2)
      · simp only [List.filter_cons, decide_eq_false hf]
        exact ih h2
  exact this o.refunds h

end Dashboard

namespace Dashboard

/-! ## Batches in which an id occurs exactly once -/

theorem refundObsOne_nil_of_ne {o : Snapshot} {n : Nat} (d : Date)
    (h : ¬ snapId o = some n) : refundObsOne o n d = [] := by
  unfold refundObsOne
  cases hid : snapId o with
  | none => rfl
  | some m =>
    have hm : ¬ m = n := fun hm => h (hm ▸ hid)
    simp [hm]

theorem refundObs_nil {rest : List Snapshot} {n : Nat} (d : Date)
    (h : ∀ o ∈ rest, ¬ snapId o = some n) : refundObs rest n d = [] := by
  induction rest with
  | nil => rfl
  | cons o rest ih =>
    rw [refundObs_cons, refundObsOne_nil_of_ne d (h o (List.mem_cons_self o rest)),
      List.nil_append]
    exact ih (fun o' ho' => h o' (List.mem_cons_of_mem o ho'))

theorem refundObs_of_filter {b : List Snapshot} {s : Snapshot} {n : Nat} (d : Date)
    (h : b.filter (fun o => decide (snapId o = some n)) = [s]) :
    refundObs b n d = refundObsOne s n d := by
  induction b with
  | nil => cases h
  | cons o rest ih =>
    rw [List.filter_cons] at h
    by_cases ho : snapId o = some n
    · rw [if_pos (decide_eq_true ho)] at h
      have hos : o = s := by
        have := congrArg (fun l => l.head?) h
        simpa using this
      have hrest : rest.filter (fun o => decide (snapId o = some n)) = [] := by
        have := congrArg (fun l => l.tail) h
        simpa using this
      have hnone : ∀ o' ∈ rest, ¬ snapId o' = some n := by
        intro o' ho'
        intro hid
        have : o' ∈ rest.filter (fun o => decide (snapId o = some n)) :=
          List.mem_filter.mpr ⟨ho', decide_eq_true hid⟩
        rw [hrest] at this
        cases this
      rw [refundObs_cons, hos, refundObs_nil d hnone]
      simp
    · rw [if_neg (by simpa using ho)] at h
      rw [refundObs_cons, refundObsOne_nil_of_ne d ho, List.nil_append]
      exact ih h

/-! ## Store upsert characterization -/

theorem upsertRows_apply (rows : List (FactKey × ℚ)) (st : Store) (k : FactKey) :
    upsertRows st rows k =
      rows.foldl (fun acc r => if k = r.1 then some r.2 else acc) (st k) := by
  induction rows generalizing st with
  | nil => rfl
  | cons r rest ih =>
    show upsertRows (setKey st r.1 r.2) rest k = _
    rw [ih]
    rfl

theorem foldl_upd_of_mem {rows : List (FactKey × ℚ)} {k : FactKey}
    (h : rows.any (fun r => decide (k = r.1)) = true) (b1 b2 : Option ℚ) :
    rows.foldl (fun acc r => if k = r.1 then some r.2 else acc) b1 =
      rows.foldl (fun acc r => if k = r.1 then some r.2 else acc) b2 := by
  induction rows generalizing b1 b2 with
  | nil => simp at h
  | cons r rest ih =>
    simp only [List.foldl_cons]
    by_cases hr : k = r.1
    · rw [if_pos hr, if_pos hr]
    · rw [if_neg hr, if_neg hr]
      simp only [List.any_cons, Bool.or_eq_true, decide_eq_true_eq] at h
      rcases h with h | h
      · exact absurd h hr
      · exact ih (List.any_eq_true.mpr (by simpa using h)) b1 b2

theorem foldl_upd_of_not_mem {rows : List (FactKey × ℚ)} {k : FactKey}
    (h : rows.any (fun r => decide (k = r.1)) = false) (b : Option ℚ) :
    rows.foldl (fun acc r => if k = r.1 then some r.2 else acc) b = b := by
  induction rows with
  | nil => rfl
  | cons r rest ih =>
    simp only [List.any_cons, Bool.or_eq_false_iff, decide_eq_false_iff_not] at h
    simp only [List.foldl_cons, if_neg h.1]
    exact ih (by simpa using h.2)

/-! ## Strip of malformed transaction amounts (error-handling analysis) -/

theorem recSum_stripTxns (rf : Refund) : recSum (stripTxns rf) = recSum rf := by
  unfold recSum stripTxns
  have haux : ∀ (ts : List Txn) (init : ℚ),
      (ts.filter (fun t => decide (t.amount ≠ .malformed))).foldl
        (fun s t =>
          if kindOk t then
            match t.amount with
            | .missing => s + |(0 : ℚ)|
            | .malformed => s
            | .val q => s + |q|
          else s) init =
      ts.foldl
        (fun s t =>
          if kindOk t then
            match t.amount with
            | .missing => s + |(0 : ℚ)|
            | .malformed => s
            | .val q => s + |q|
          else s) init := by
    intro ts
    induction ts with
    | nil => intro init; rfl
    | cons t rest ih =>
      intro init
      by_cases hm : t.amount = .malformed
      · simp only [List.filter_cons, hm, List.foldl_cons]
        rw [decide_eq_false (by simp)]
        by_cases hk : kindOk t
        · rw [if_pos hk]
          exact ih init
        · rw [if_neg hk]
          exact ih init
      · simp only [List.filter_cons, List.foldl_cons]
        rw [decide_eq_true (by simpa using hm)]
        simp only [List.foldl_cons]
        exact ih _
  exact haux rf.txns 0

theorem refundStep_stripTxns (agg : Agg) (n : Nat) (rfs : List Refund) :
    refundStep agg n (rfs.map stripTxns) = refundStep agg n rfs := by
  induction rfs generalizing agg with
  | nil => rfl
  | cons rf rest ih =>
    have hcr : (stripTxns rf).created_at = rf.created_at := rfl
    cases hpd : parseIsoToIstDate rf.created_at with
    | none =>
      rw [List.map_cons, refundStep_cons_skip agg n (rest.map stripTxns) (hcr ▸ hpd),
        refundStep_cons_skip agg n rest hpd]
      exact ih agg
    | some d =>
      by_cases hpos : 0 < recSum rf
      · rw [List.map_cons,
          refundStep_cons_pos agg n (rest.map stripTxns) (hcr ▸ hpd)
            (by rw [recSum_stripTxns]; exact hpos),
          refundStep_cons_pos agg n rest hpd hpos, recSum_stripTxns]
        exact ih _
      · rw [List.map_cons,
          refundStep_cons_neg agg n (rest.map stripTxns) (hcr ▸ hpd)
            (by rw [recSum_stripTxns]; exact hpos),
          refundStep_cons_neg agg n rest hpd hpos]
        exact ih agg

theorem processOrder_stripSnap (agg : Agg) (o : Snapshot) :
    processOrder agg (stripSnap o) = processOrder agg o := by
  have hid : snapId (stripSnap o) = snapId o := rfl
  have hcs : ∀ n, cancelStep agg n (stripSnap o) = cancelStep agg n o := fun n => rfl
  have hrf : (stripSnap o).refunds = o.refunds.map stripTxns := rfl
  unfold processOrder
  rw [hid]
  cases hsn : snapId o with
  | none => rfl
  | some n =>
    simp only [hcs, hrf, refundStep_stripTxns]

theorem processAll_stripBatch (agg : Agg) (b : List Snapshot) :
    processAll agg (stripBatch b) = processAll agg b := by
  induction b generalizing agg with
  | nil => rfl
  | cons o rest ih =>
    show processAll agg (stripSnap o :: stripBatch rest) = _
    unfold processAll
    rw [processOrder_stripSnap]
    cases processOrder agg o with
    | none => rfl
    | some agg1 => exact ih agg1

theorem processOrder_isSome {agg : Agg} {o : Snapshot} (h : ¬ cancelRaises o) :
    ∃ agg1, processOrder agg o = some agg1 := by
  cases hid : snapId o with
  | none => exact ⟨agg, by simp [processOrder, hid]⟩
  | some n =>
    cases hcs : cancelStep agg n o with
    | none =>
      exfalso
      unfold cancelStep at hcs
      cases hpc : parseIsoToIstDate o.cancelled_at with
      | none => simp only [hpc] at hcs; exact Option.noConfusion hcs
      | some dc =>
        simp only [hpc] at hcs
        cases hfz : floatOrZero o.total_price with
        | some amt => simp only [hfz] at hcs; exact Option.noConfusion hcs
        | none =>
          have hm : o.total_price = .malformed := by
            cases htp : o.total_price with
            | missing => rw [htp] at hfz; exact Option.noConfusion hfz
            | malformed => rfl
            | val q => rw [htp] at hfz; exact Option.noConfusion hfz
          exact h ⟨by rw [hid]; rfl, by rw [hpc]; rfl, hm⟩
    | some agg1 =>
      exact ⟨refundStep agg1 n o.refunds, by simp [processOrder, hid, hcs]⟩

theorem processAll_isSome {agg : Agg} {b : List Snapshot}
    (h : ∀ o ∈ b, ¬ cancelRaises o) : ∃ agg', processAll agg b = some agg' := by
  induction b generalizing agg with
  | nil => exact ⟨agg, rfl⟩
  | cons o rest ih =>
    rcases @processOrder_isSome agg o (h o (List.mem_cons_self o rest)) with ⟨agg1, h1⟩
    rcases @ih agg1 (fun o' ho' => h o' (List.mem_cons_of_mem o ho')) with ⟨agg', h2⟩
    exact ⟨agg', by unfold processAll; rw [h1]; exact h2⟩

end Dashboard

namespace Dashboard

/-! ## Claim theorems for the returns reconciler -/

/-- Claim C3 (counterexample): a cancelled snapshot with total_price -5 and
cancellation timestamp 2024-01-05T10:00:00Z yields a CANCEL fact of amount
0, not the snapshot's total_price -5, because the code takes the maximum
with the default 0.0. -/
theorem C3_counterexample :
    snapCancelNeg.total_price = .val (-5) ∧
    parseIsoToIstDate snapCancelNeg.cancelled_at = some dJan5 ∧
    deriveRows [snapCancelNeg] = some [((1, .CANCEL, dJan5), 0)] ∧
    (0 : ℚ) ≠ -5 := by
  refine ⟨rfl, by decide, ?_, by norm_num⟩
  norm_num +decide [deriveRows, deriveAgg, processAll, processOrder, snapCancelNeg,
    snapId, cancelStep, refundStep, recSum, parseIsoToIstDate, Ts.istDate,
    istOffsetSeconds, tsJan5, dJan5, updAgg, round2, roundHalfEven, floatOrZero]

/-- Claim C3 (amended): whenever the reconciler does not raise, it derives at
most one CANCEL fact per (entity, CANCEL, date) key; the key carries a fact
exactly when some snapshot with that id has a cancellation timestamp whose
IST calendar date is that date, and the fact's amount is the maximum of 0
and all observed total_price values for the key (so the amount of a single
observation equals its total_price only when that price is nonnegative),
rounded to two decimals. -/
theorem C3_cancel_fact_amount {b : List Snapshot} {rows : List (FactKey × ℚ)}
    (h : deriveRows b = some rows) (n : Nat) (d : Date) :
    rows.filter (fun p => decide (p.1 = (n, .CANCEL, d))) =
      (if cancelObs b n d = [] then []
       else [((n, .CANCEL, d), round2 ((cancelObs b n d).foldl max 0))]) := by
  obtain ⟨agg', hda, hfil⟩ := deriveRows_filter h (n, .CANCEL, d)
  have hda' : processAll [] b = some agg' := hda
  have hl := processAll_cancel_lookup hda' n d
  rw [hfil, hl]
  by_cases hobs : cancelObs b n d = []
  · rw [if_pos hobs, if_pos hobs]
    rfl
  · rw [if_neg hobs, if_neg hobs]
    rfl

/-- Witness for C3_cancel_fact_amount at the spec scenario: cancelled_at =
2024-01-05T10:00:00Z, total_price = 500 yields the single fact
(1, CANCEL, 2024-01-05, 500.00). -/
theorem C3_cancel_fact_amount_witness :
    deriveRows [snapCancel500] = some [((1, .CANCEL, dJan5), 500)] ∧
    ([((1, .CANCEL, dJan5), (500 : ℚ))].filter
        (fun p => decide (p.1 = ((1 : Nat), EType.CANCEL, dJan5))) =
      (if cancelObs [snapCancel500] 1 dJan5 = [] then []
       else
         [((1, .CANCEL, dJan5),
           round2 ((cancelObs [snapCancel500] 1 dJan5).foldl max 0))])) := by
  have hder : deriveRows [snapCancel500] = some [((1, .CANCEL, dJan5), 500)] := by
    norm_num +decide [deriveRows, deriveAgg, processAll, processOrder, snapCancel500,
      snapId, cancelStep, refundStep, recSum, parseIsoToIstDate, Ts.istDate,
      istOffsetSeconds, tsJan5, dJan5, updAgg, round2, roundHalfEven, floatOrZero]
  exact ⟨hder, C3_cancel_fact_amount hder 1 dJan5⟩

/-- Claim C4: in a batch where an entity id occurs in exactly one snapshot,
that snapshot produces at most one REFUND fact per IST calendar day: the
key (entity, REFUND, day) carries exactly one fact, of amount equal to the
sum over the snapshot's refund sub-records dated that day of the absolute
values of the amounts of the transactions whose kind is refund, chargeback
or return, when that sum is positive, and no fact otherwise. -/
theorem C4_refund_fact_amount {b : List Snapshot} {rows : List (FactKey × ℚ)}
    {s : Snapshot} {n : Nat} (hid : snapId s = some n)
    (huniq : b.filter (fun o => decide (snapId o = some n)) = [s])
    (h : deriveRows b = some rows)
    (hcents : ∀ rf ∈ s.refunds, ∀ t ∈ rf.txns, centsField t.amount)
    (d : Date) :
    rows.filter (fun p => decide (p.1 = (n, .REFUND, d))) =
      (if 0 < daySum s d then [((n, .REFUND, d), daySum s d)] else []) := by
  obtain ⟨agg', hda, hfil⟩ := deriveRows_filter h (n, .REFUND, d)
  have hda' : processAll [] b = some agg' := hda
  have hl := processAll_refund_lookup hda' n d
  have hobs : refundObs b n d = recObs s.refunds d := by
    rw [refundObs_of_filter d huniq]
    simp [refundObsOne, hid]
  rw [hfil, hl, hobs]
  by_cases hrec : recObs s.refunds d = []
  · rw [if_pos hrec]
    have hnd : ¬ 0 < daySum s d := fun hp => (daySum_pos_iff s d).mp hp hrec
    rw [if_neg hnd]
    rfl
  · rw [if_neg hrec]
    have hpos : 0 < daySum s d := (daySum_pos_iff s d).mpr hrec
    rw [if_pos hpos]
    show [((n, EType.REFUND, d),
        round2 ((recObs s.refunds d).foldl (fun a x => a + x) 0))] =
      [((n, .REFUND, d), daySum s d)]
    have hsum : (recObs s.refunds d).foldl (fun a x => a + x) 0 = daySum s d := by
      rw [foldl_add_eq, zero_add, recObs_sum, ← daySum_eq_sum]
    rw [hsum, round2_cents (daySum_cents s d hcents)]

/-- Witness for C4_refund_fact_amount at the spec scenario: two refund
sub-records dated 2024-02-10 with amounts -150 and -50, both kind refund,
yield the single fact (7, REFUND, 2024-02-10, 200.00). -/
theorem C4_refund_fact_amount_witness :
    deriveRows [snapRefund200] = some [((7, .REFUND, dFeb10), 200)] ∧
    ([((7, .REFUND, dFeb10), (200 : ℚ))].filter
        (fun p => decide (p.1 = ((7 : Nat), EType.REFUND, dFeb10))) =
      (if 0 < daySum snapRefund200 dFeb10 then
        [((7, .REFUND, dFeb10), daySum snapRefund200 dFeb10)]
       else [])) := by
  have hder : deriveRows [snapRefund200] = some [((7, .REFUND, dFeb10), 200)] := by
    norm_num +decide [deriveRows, deriveAgg, processAll, processOrder, snapRefund200,
      snapId, cancelStep, refundStep, recSum, kindOk, refundKinds, lowerStr,
      parseIsoToIstDate, Ts.istDate, istOffsetSeconds, tsFeb10, dFeb10, updAgg,
      round2, roundHalfEven, floatOrZero]
  have hcents : ∀ rf ∈ snapRefund200.refunds, ∀ t ∈ rf.txns, centsField t.amount := by
    intro rf hrf t ht
    simp only [snapRefund200] at hrf
    fin_cases hrf <;> fin_cases ht
    · exact ⟨-15000, by norm_num⟩
    · exact ⟨-5000, by norm_num⟩
  exact ⟨hder,
    C4_refund_fact_amount (s := snapRefund200) (n := 7) rfl (by decide) hder hcents dFeb10⟩

/-- Claim C5: running the reconciler a second time with the same batch from
the state the first run produced leaves the fact store unchanged: the same
rows are derived and each upsert replaces a fact with the same identity by
the same amount. -/
theorem C5_reconciler_idempotent {st st' : Store} {b : List Snapshot}
    (h : runReconciler st b = some st') :
    runReconciler st' b = some st' := by
  unfold runReconciler at h ⊢
  by_cases hb : b = []
  · rw [if_pos hb] at h
    cases h
    rw [if_pos hb]
  · rw [if_neg hb] at h ⊢
    cases hdr : deriveRows b with
    | none =>
      simp only [hdr] at h
      exact Option.noConfusion h
    | some rows =>
      simp only [hdr] at h ⊢
      by_cases hrows : rows = []
      · rw [if_pos hrows] at h
        cases h
        rw [if_pos hrows]
      · rw [if_neg hrows] at h
        cases h
        have hidem : upsertRows (upsertRows st rows) rows = upsertRows st rows := by
          funext k
          rw [upsertRows_apply rows (upsertRows st rows) k, upsertRows_apply rows st k]
          cases hany : rows.any (fun r => decide (k = r.1)) with
          | true => exact foldl_upd_of_mem hany _ _
          | false => rw [foldl_upd_of_not_mem hany]
        rw [hidem, if_neg hrows]

/-- Witness for C5_reconciler_idempotent: a store holding the fact derived
from snapRefund200 is a fixed point of a repeated run of the same batch. -/
theorem C5_reconciler_idempotent_witness :
    runReconciler emptyStore [snapRefund200] = some storeAfter200 ∧
    runReconciler storeAfter200 [snapRefund200] = some storeAfter200 := by
  have hrun : runReconciler emptyStore [snapRefund200] = some storeAfter200 := by
    norm_num +decide [runReconciler, deriveRows, deriveAgg, processAll, processOrder,
      snapRefund200, snapId, cancelStep, refundStep, recSum, kindOk, refundKinds,
      lowerStr, parseIsoToIstDate, Ts.istDate, istOffsetSeconds, tsFeb10, dFeb10,
      updAgg, round2, roundHalfEven, floatOrZero, upsertRows, storeAfter200,
      setKey, emptyStore]
  exact ⟨hrun, C5_reconciler_idempotent hrun⟩

/-- Claim C7 (counterexample): a batch containing a cancelled snapshot with
an unparseable total_price raises (the float conversion is outside every
try block), so the run aborts and even the facts of the well-formed
snapshot in the batch are not upserted. -/
theorem C7_counterexample :
    runReconciler emptyStore [snapRefund200, snapCancelBad] = none ∧
    deriveRows [snapRefund200] = some [((7, .REFUND, dFeb10), 200)] := by
  constructor
  · norm_num +decide [runReconciler, deriveRows, deriveAgg, processAll, processOrder,
      snapRefund200, snapCancelBad, snapId, cancelStep, refundStep, recSum, kindOk,
      refundKinds, lowerStr, parseIsoToIstDate, Ts.istDate, istOffsetSeconds,
      tsFeb10, tsJan5, dFeb10, dJan5, updAgg, round2, roundHalfEven, floatOrZero]
  · norm_num +decide [deriveRows, deriveAgg, processAll, processOrder, snapRefund200,
      snapId, cancelStep, refundStep, recSum, kindOk, refundKinds, lowerStr,
      parseIsoToIstDate, Ts.istDate, istOffsetSeconds, tsFeb10, dFeb10, updAgg,
      round2, roundHalfEven, floatOrZero]

/-- Claim C7 (amended): a malformed refund-transaction amount is skipped at
per-transaction granularity — the derived rows are identical to those of
the batch with every malformed transaction amount removed — and the run
does not raise, provided no cancelled snapshot of the batch carries an
unparseable total_price (that single case aborts the whole batch). -/
theorem C7_malformed_txn_skipped {b : List Snapshot}
    (h : ∀ o ∈ b, ¬ cancelRaises o) :
    (deriveRows b).isSome ∧ deriveRows b = deriveRows (stripBatch b) := by
  constructor
  · rcases @processAll_isSome [] b h with ⟨agg', ha⟩
    unfold deriveRows deriveAgg
    rw [ha]
    rfl
  · unfold deriveRows deriveAgg
    rw [processAll_stripBatch]

/-- Witness for C7_malformed_txn_skipped on a snapshot carrying one
malformed and one well-formed refund transaction. -/
theorem C7_malformed_txn_skipped_witness :
    (∀ o ∈ [snapMixedTxn], ¬ cancelRaises o) ∧
    (deriveRows [snapMixedTxn]).isSome ∧
    deriveRows [snapMixedTxn] = deriveRows (stripBatch [snapMixedTxn]) := by
  have hh : ∀ o ∈ [snapMixedTxn], ¬ cancelRaises o := by
    intro o ho
    fin_cases ho
    intro hc
    exact Option.noConfusion ((Option.isSome_iff_exists.mp hc.2.1).choose_spec)
  exact ⟨hh, C7_malformed_txn_skipped hh⟩

end Dashboard

namespace Dashboard

/-! ## Claim theorems for the window tracker, fetcher and boundary dedup -/

/-- Claim C6: with no active backfill override, a feed with persisted last
timestamp t gets the fetch window [t + 1, now), whose start is strictly
greater than the previous high-water-mark; any window computed on the
incremental path has start strictly above the last timestamp. -/
theorem C6_window_monotonic (mode : Bool) (s e : Option ℤ) (t nowTs : ℤ)
    (hb : validateBackfill mode s e = none) :
    computeFetchWindow (validateBackfill mode s e) (some t) nowTs = some (t + 1, nowTs) ∧
    t < t + 1 ∧
    (∀ w, computeFetchWindow none (some t) nowTs = some w → t < w.1) := by
  refine ⟨by rw [hb]; rfl, by omega, ?_⟩
  intro w hw
  have hww : (t + 1, nowTs) = w := Option.some.inj hw
  rw [← hww]
  omega

/-- Witness for C6_window_monotonic with an inactive override. -/
theorem C6_window_monotonic_witness :
    validateBackfill false none none = none ∧
    (computeFetchWindow (validateBackfill false none none) (some 100) 200 =
        some (101, 200) ∧
      (100 : ℤ) < 101 ∧
      (∀ w, computeFetchWindow none (some 100) 200 = some w → (100 : ℤ) < w.1)) :=
  ⟨rfl, C6_window_monotonic false none none 100 200 rfl⟩

/-- Claim C8 (counterexample): after a successful page that advertises a
next cursor, a non-429 failure status makes the fetcher return the single
accumulated page exactly as a fully successful fetch of that one page
would — a silent return of the partially accumulated pages, not a terminal
failure. -/
theorem C8_counterexample :
    fetchOrders [.page [7] true, .fail 500] = [7] ∧
    fetchOrders [.page [7] true, .page [8] false] = [7, 8] :=
  ⟨rfl, rfl⟩

/-- Claim C8 (amended): the fetcher follows the pagination cursor through
every nonempty page, retries the same request on a 429, and on any other
non-success response stops and returns the orders accumulated so far as an
ordinary (truncated) result. -/
theorem C8_fetch_behavior (ps : List (List Nat)) (hne : ∀ os ∈ ps, os ≠ [])
    (rest : List PageResp) (status : Nat) (last : List Nat) (hlast : last ≠ [])
    (acc : List Nat) (t : Nat) :
    fetchGo (ps.map (fun os => PageResp.page os true) ++ PageResp.fail status :: rest)
        acc = acc ++ ps.flatten ∧
    fetchGo (ps.map (fun os => PageResp.page os true) ++ [PageResp.page last false])
        acc = acc ++ ps.flatten ++ last ∧
    fetchGo (PageResp.rate t :: rest) acc = fetchGo rest acc := by
  refine ⟨?_, ?_, rfl⟩
  · induction ps generalizing acc with
    | nil => simp [fetchGo]
    | cons os ps ih =>
      cases os with
      | nil => exact absurd rfl (hne [] (List.mem_cons_self _ _))
      | cons o os' =>
        have hstep : fetchGo
            (((o :: os') :: ps).map (fun os => PageResp.page os true) ++
              PageResp.fail status :: rest) acc =
            fetchGo (ps.map (fun os => PageResp.page os true) ++
              PageResp.fail status :: rest) (acc ++ (o :: os')) := rfl
        rw [hstep, ih (fun os hos => hne os (List.mem_cons_of_mem _ hos))]
        simp
  · induction ps generalizing acc with
    | nil =>
      cases last with
      | nil => exact absurd rfl hlast
      | cons x xs => simp [fetchGo]
    | cons os ps ih =>
      cases os with
      | nil => exact absurd rfl (hne [] (List.mem_cons_self _ _))
      | cons o os' =>
        have hstep : fetchGo
            (((o :: os') :: ps).map (fun os => PageResp.page os true) ++
              [PageResp.page last false]) acc =
            fetchGo (ps.map (fun os => PageResp.page os true) ++
              [PageResp.page last false]) (acc ++ (o :: os')) := rfl
        rw [hstep, ih (fun os hos => hne os (List.mem_cons_of_mem _ hos))]
        simp

/-- Witness for C8_fetch_behavior: one good page, then a 500. -/
theorem C8_fetch_behavior_witness :
    (∀ os ∈ [[7]], os ≠ ([] : List Nat)) ∧
    (fetchGo ([[7]].map (fun os => PageResp.page os true) ++ PageResp.fail 500 :: [])
        [] = [] ++ [[7]].flatten ∧
      fetchGo ([[7]].map (fun os => PageResp.page os true) ++ [PageResp.page [8] false])
        [] = [] ++ [[7]].flatten ++ [8] ∧
      fetchGo (PageResp.rate 2 :: []) [] = fetchGo [] []) := by
  have hne : ∀ os ∈ [[7]], os ≠ ([] : List Nat) := by
    intro os hos
    fin_cases hos
    simp
  exact ⟨hne, C8_fetch_behavior [[7]] hne [] 500 [8] (by simp) [] 2⟩

/-- Claim C10: when the boundary-duplicate lookup fails with a database
error it yields the empty id set rather than raising, and the subsequent
duplicate filter then keeps every fetched record (so boundary records can
be persisted a second time). -/
theorem C10_boundary_dedup_error (e : Unit) (orders : List Snapshot) :
    getOrdersWithSameTimestamp (.error e) = [] ∧
    filterNewOrders (getOrdersWithSameTimestamp (.error e)) orders = orders :=
  ⟨rfl, rfl⟩

end Dashboard

namespace Dashboard

/-! ## Date order and min/max folds of the affected-range accumulator -/

theorem dateLe_refl (a : Date) : dateLe a a = true := by simp [dateLe]

theorem dateLe_trans {a b c : Date} (h1 : dateLe a b = true) (h2 : dateLe b c = true) :
    dateLe a c = true := by
  simp only [dateLe, decide_eq_true_eq] at *
  omega

theorem dateLe_total (a b : Date) : dateLe a b = true ∨ dateLe b a = true := by
  simp only [dateLe, decide_eq_true_eq]
  omega

theorem minD_go {l : List Date} {acc m : Date}
    (h : l.foldl
        (fun a d =>
          match a with
          | none => some d
          | some x => some (if dateLe d x then d else x)) (some acc) = some m) :
    (m = acc ∨ m ∈ l) ∧ dateLe m acc = true ∧ ∀ d ∈ l, dateLe m d = true := by
  induction l generalizing acc with
  | nil =>
    have hm := Option.some.inj h
    subst hm
    exact ⟨Or.inl rfl, dateLe_refl _, fun d hd => absurd hd (List.not_mem_nil d)⟩
  | cons d l ih =>
    simp only [List.foldl_cons] at h
    by_cases hda : dateLe d acc = true
    · rw [if_pos hda] at h
      obtain ⟨hmem, hmacc, hall⟩ := ih h
      refine ⟨?_, ?_, ?_⟩
      · rcases hmem with hm | hm
        · exact Or.inr (hm ▸ List.mem_cons_self d l)
        · exact Or.inr (List.mem_cons_of_mem d hm)
      · exact dateLe_trans hmacc hda
      · intro d' hd'
        rcases List.mem_cons.mp hd' with hd' | hd'
        · exact hd' ▸ hmacc
        · exact hall d' hd'
    · rw [if_neg hda] at h
      obtain ⟨hmem, hmacc, hall⟩ := ih h
      have had : dateLe acc d = true := by
        rcases dateLe_total d acc with hh | hh
        · exact absurd hh hda
        · exact hh
      refine ⟨?_, hmacc, ?_⟩
      · rcases hmem with hm | hm
        · exact Or.inl hm
        · exact Or.inr (List.mem_cons_of_mem d hm)
      · intro d' hd'
        rcases List.mem_cons.mp hd' with hd' | hd'
        · exact hd' ▸ dateLe_trans hmacc had
        · exact hall d' hd'

theorem maxD_go {l : List Date} {acc m : Date}
    (h : l.foldl
        (fun a d =>
          match a with
          | none => some d
          | some x => some (if dateLe x d then d else x)) (some acc) = some m) :
    (m = acc ∨ m ∈ l) ∧ dateLe acc m = true ∧ ∀ d ∈ l, dateLe d m = true := by
  induction l generalizing acc with
  | nil =>
    have hm := Option.some.inj h
    subst hm
    exact ⟨Or.inl rfl, dateLe_refl _, fun d hd => absurd hd (List.not_mem_nil d)⟩
  | cons d l ih =>
    simp only [List.foldl_cons] at h
    by_cases hda : dateLe acc d = true
    · rw [if_pos hda] at h
      obtain ⟨hmem, hmacc, hall⟩ := ih h
      refine ⟨?_, ?_, ?_⟩
      · rcases hmem with hm | hm
        · exact Or.inr (hm ▸ List.mem_cons_self d l)
        · exact Or.inr (List.mem_cons_of_mem d hm)
      · exact dateLe_trans hda hmacc
      · intro d' hd'
        rcases List.mem_cons.mp hd' with hd' | hd'
        · exact hd' ▸ hmacc
        · exact hall d' hd'
    · rw [if_neg hda] at h
      obtain ⟨hmem, hmacc, hall⟩ := ih h
      have had : dateLe d acc = true := by
        rcases dateLe_total acc d with hh | hh
        · exact absurd hh hda
        · exact hh
      refine ⟨?_, hmacc, ?_⟩
      · rcases hmem with hm | hm
        · exact Or.inl hm
        · exact Or.inr (List.mem_cons_of_mem d hm)
      · intro d' hd'
        rcases List.mem_cons.mp hd' with hd' | hd'
        · exact hd' ▸ dateLe_trans had hmacc
        · exact hall d' hd'

theorem foldl_min_isSome (l : List Date) (acc : Date) :
    ∃ m, l.foldl
        (fun a d =>
          match a with
          | none => some d
          | some x => some (if dateLe d x then d else x)) (some acc) = some m := by
  induction l generalizing acc with
  | nil => exact ⟨acc, rfl⟩
  | cons d l ih =>
    simp only [List.foldl_cons]
    exact ih _

theorem foldl_max_isSome (l : List Date) (acc : Date) :
    ∃ m, l.foldl
        (fun a d =>
          match a with
          | none => some d
          | some x => some (if dateLe x d then d else x)) (some acc) = some m := by
  induction l generalizing acc with
  | nil => exact ⟨acc, rfl⟩
  | cons d l ih =>
    simp only [List.foldl_cons]
    exact ih _

theorem minD_spec {l : List Date} {m : Date} (h : minD l = some m) :
    m ∈ l ∧ ∀ d ∈ l, dateLe m d = true := by
  cases l with
  | nil => cases h
  | cons d rest =>
    have h' : rest.foldl
        (fun a d =>
          match a with
          | none => some d
          | some x => some (if dateLe d x then d else x)) (some d) = some m := h
    obtain ⟨hmem, hmacc, hall⟩ := minD_go h'
    refine ⟨?_, ?_⟩
    · rcases hmem with hm | hm
      · exact hm ▸ List.mem_cons_self d rest
      · exact List.mem_cons_of_mem d hm
    · intro d' hd'
      rcases List.mem_cons.mp hd' with hd' | hd'
      · exact hd' ▸ hmacc
      · exact hall d' hd'

theorem maxD_spec {l : List Date} {m : Date} (h : maxD l = some m) :
    m ∈ l ∧ ∀ d ∈ l, dateLe d m = true := by
  cases l with
  | nil => cases h
  | cons d rest =>
    have h' : rest.foldl
        (fun a d =>
          match a with
          | none => some d
          | some x => some (if dateLe x d then d else x)) (some d) = some m := h
    obtain ⟨hmem, hmacc, hall⟩ := maxD_go h'
    refine ⟨?_, ?_⟩
    · rcases hmem with hm | hm
      · exact hm ▸ List.mem_cons_self d rest
      · exact List.mem_cons_of_mem d hm
    · intro d' hd'
      rcases List.mem_cons.mp hd' with hd' | hd'
      · exact hd' ▸ hmacc
      · exact hall d' hd'

theorem minD_isSome {l : List Date} (h : l ≠ []) : ∃ m, minD l = some m := by
  cases l with
  | nil => exact absurd rfl h
  | cons d rest => exact foldl_min_isSome rest d

theorem maxD_isSome {l : List Date} (h : l ≠ []) : ∃ m, maxD l = some m := by
  cases l with
  | nil => exact absurd rfl h
  | cons d rest => exact foldl_max_isSome rest d

/-- Claim C9: the affected-range accumulator is a pure function of the
snapshots: it yields (None, None) exactly when no snapshot contributes a
parseable date (in particular for an empty batch); otherwise it yields the
minimum and maximum of the IST dates implied by every snapshot's created,
updated and cancelled timestamps and each refund sub-record's date. -/
theorem C9_affected_range (orders : List Snapshot) :
    (getAffectedDateRange orders = (none, none) ↔ allDatesOf orders = []) ∧
    (allDatesOf orders ≠ [] →
      ∃ lo hi, getAffectedDateRange orders = (some lo, some hi)) ∧
    (∀ lo hi, getAffectedDateRange orders = (some lo, some hi) →
      lo ∈ allDatesOf orders ∧ hi ∈ allDatesOf orders ∧
        ∀ d ∈ allDatesOf orders, dateLe lo d = true ∧ dateLe d hi = true) := by
  by_cases ho : orders = []
  · subst ho
    refine ⟨⟨fun _ => rfl, fun _ => rfl⟩, fun hne => absurd rfl hne, ?_⟩
    intro lo hi hlh
    have := (Prod.mk.injEq _ _ _ _).mp hlh
    exact absurd this.1 (by simp)
  · unfold getAffectedDateRange
    rw [if_neg ho]
    refine ⟨⟨?_, ?_⟩, ?_, ?_⟩
    · intro hmm
      have hmin : minD (allDatesOf orders) = none := ((Prod.mk.injEq _ _ _ _).mp hmm).1
      by_contra hne
      obtain ⟨m, hm⟩ := minD_isSome hne
      rw [hm] at hmin
      cases hmin
    · intro hnil
      rw [hnil]
      rfl
    · intro hne
      obtain ⟨m, hm⟩ := minD_isSome hne
      obtain ⟨M, hM⟩ := maxD_isSome hne
      exact ⟨m, M, by rw [hm, hM]⟩
    · intro lo hi hlh
      have hpair := (Prod.mk.injEq _ _ _ _).mp hlh
      obtain ⟨hlomem, hloall⟩ := minD_spec hpair.1
      obtain ⟨hhimem, hhiall⟩ := maxD_spec hpair.2
      exact ⟨hlomem, hhimem, fun d hd => ⟨hloall d hd, hhiall d hd⟩⟩

/-- Witness for C9_affected_range: the cancelled and refunded snapshots
together span 2024-01-05 to 2024-02-10. -/
theorem C9_affected_range_witness :
    (getAffectedDateRange [] = (none, none) ↔ allDatesOf [] = []) ∧
    (∀ lo hi,
      getAffectedDateRange [snapCancel500, snapRefund200] = (some lo, some hi) →
        lo ∈ allDatesOf [snapCancel500, snapRefund200] ∧
          hi ∈ allDatesOf [snapCancel500, snapRefund200] ∧
          ∀ d ∈ allDatesOf [snapCancel500, snapRefund200],
            dateLe lo d = true ∧ dateLe d hi = true) ∧
    getAffectedDateRange [snapCancel500, snapRefund200] = (some dJan5, some dFeb10) := by
  refine ⟨(C9_affected_range []).1, (C9_affected_range _).2.2, ?_⟩
  decide

end Dashboard

namespace Dashboard

/-! ## Generic delete-then-insert reasoning on date-keyed tables -/

theorem mem_dedupL {α : Type} [DecidableEq α] {x : α} {l : List α} :
    x ∈ dedupL l ↔ x ∈ l := by
  have haux : ∀ (l : List α) (acc : List α),
      (x ∈ l.foldl
          (fun acc y => if acc.any (fun z => decide (z = y)) then acc else acc ++ [y])
          acc) ↔ x ∈ acc ∨ x ∈ l := by
    intro l
    induction l with
    | nil => intro acc; simp
    | cons y l ih =>
      intro acc
      simp only [List.foldl_cons]
      by_cases hc : acc.any (fun z => decide (z = y)) = true
      · rw [if_pos hc, ih]
        have hy : y ∈ acc := by
          rcases List.any_eq_true.mp hc with ⟨z, hz, hzy⟩
          simp only [decide_eq_true_eq] at hzy
          exact hzy ▸ hz
        constructor
        · rintro (hx | hx)
          · exact Or.inl hx
          · exact Or.inr (List.mem_cons_of_mem y hx)
        · rintro (hx | hx)
          · exact Or.inl hx
          · rcases List.mem_cons.mp hx with hx | hx
            · exact Or.inl (hx ▸ hy)
            · exact Or.inr hx
      · rw [if_neg hc, ih]
        simp only [List.mem_append, List.mem_singleton, List.mem_cons]
        tauto
  unfold dedupL
  rw [haux l []]
  simp

theorem filter_eq_nil_of_false {α : Type} {f : α → Bool} {l : List α}
    (h : ∀ a ∈ l, f a = false) : l.filter f = [] := by
  induction l with
  | nil => rfl
  | cons a l ih =>
    rw [List.filter_cons, h a (List.mem_cons_self a l)]
    simp only [Bool.false_eq_true, if_false]
    exact ih (fun a' ha' => h a' (List.mem_cons_of_mem a ha'))

theorem filter_filter_sub {α : Type} (f g : α → Bool) (l : List α)
    (h : ∀ a ∈ l, g a = true → f a = true) :
    (l.filter f).filter g = l.filter g := by
  induction l with
  | nil => rfl
  | cons a l ih =>
    have ih' := ih (fun a' ha' => h a' (List.mem_cons_of_mem a ha'))
    by_cases hf : f a = true
    · cases hg : g a <;> simp [List.filter_cons, hf, hg, ih']
    · cases hg : g a
      · simp [List.filter_cons, hf, hg, ih']
      · exact absurd (h a (List.mem_cons_self a l) hg) hf

/-- Frame: for a date outside the deletion range, the delete-then-insert
update leaves the rows for that date untouched. -/
theorem filter_outside_frame {α : Type} (p q : α → Bool) (tbl new : List α)
    (hnew : ∀ r ∈ new, p r = true) (hq : ∀ a, q a = true → p a = false) :
    ((tbl.filter (fun r => !(p r))) ++ new).filter q = tbl.filter q := by
  rw [List.filter_append]
  have h1 : new.filter q = [] := by
    apply filter_eq_nil_of_false
    intro a ha
    cases hqa : q a
    · rfl
    · have := hq a hqa
      rw [hnew a ha] at this
      cases this
  have h2 : (tbl.filter (fun r => !(p r))).filter q = tbl.filter q := by
    apply filter_filter_sub
    intro a _ hqa
    rw [hq a hqa]
    rfl
  rw [h1, h2, List.append_nil]

/-- Inside the range every pre-existing row is deleted: the rows for an
in-range date after the update are exactly the freshly inserted ones. -/
theorem filter_inside_new {α : Type} (p q : α → Bool) (tbl new : List α)
    (hq : ∀ a, q a = true → p a = true) :
    ((tbl.filter (fun r => !(p r))) ++ new).filter q = new.filter q := by
  rw [List.filter_append]
  have h1 : (tbl.filter (fun r => !(p r))).filter q = [] := by
    apply filter_eq_nil_of_false
    intro a ha
    rcases List.mem_filter.mp ha with ⟨_, hpa⟩
    cases hqa : q a
    · rfl
    · rw [hq a hqa] at hpa
      cases hpa
  rw [h1, List.nil_append]

/-! ## Date provenance of the freshly inserted summary rows -/

theorem mem_salesDates {orders : List OrderRow} {lo hi d : Date}
    (h : d ∈ salesDates orders lo hi) : inRange lo hi d = true := by
  unfold salesDates at h
  rcases List.mem_filterMap.mp (mem_dedupL.mp h) with ⟨r, hr, hrd⟩
  have := (List.mem_filter.mp hr).2
  rw [hrd] at this
  exact this

theorem mem_returnsDates {updates : List OrderRow} {lo hi d : Date}
    (h : d ∈ returnsDates updates lo hi) : inRange lo hi d = true := by
  unfold returnsDates at h
  rcases List.mem_filterMap.mp (mem_dedupL.mp h) with ⟨r, hr, hrd⟩
  have hb := (List.mem_filter.mp hr).2
  rcases Bool.and_eq_true_iff.mp hb with ⟨_, hrng⟩
  rw [hrd] at hrng
  exact hrng

theorem mem_refundDates {facts : List FactRow} {lo hi d : Date}
    (h : d ∈ refundDates facts lo hi) : inRange lo hi d = true := by
  unfold refundDates at h
  rcases List.mem_map.mp (mem_dedupL.mp h) with ⟨f, hf, hfd⟩
  have hb := (List.mem_filter.mp hf).2
  rcases Bool.and_eq_true_iff.mp hb with ⟨_, hrng⟩
  exact hfd ▸ hrng

theorem mem_salesAllDates {orders updates : List OrderRow} {facts : List FactRow}
    {lo hi d : Date} (h : d ∈ salesAllDates orders updates facts lo hi) :
    inRange lo hi d = true := by
  unfold salesAllDates at h
  rcases List.mem_append.mp (mem_dedupL.mp h) with h | h
  · rcases List.mem_append.mp h with h | h
    · exact mem_salesDates h
    · exact mem_returnsDates h
  · exact mem_refundDates h

theorem mem_orderAllDates {orders updates : List OrderRow} {lo hi d : Date}
    (h : d ∈ orderAllDates orders updates lo hi) : inRange lo hi d = true := by
  unfold orderAllDates at h
  rcases List.mem_append.mp (mem_dedupL.mp h) with h | h
  · exact mem_salesDates h
  · exact mem_returnsDates h

theorem mem_hourGroups {orders : List OrderRow} {lo hi : Date} {p : Date × Nat}
    (h : p ∈ hourGroups orders lo hi) : inRange lo hi p.1 = true := by
  unfold hourGroups at h
  rcases List.mem_filterMap.mp (mem_dedupL.mp h) with ⟨r, hr, hrp⟩
  have hb := (List.mem_filter.mp hr).2
  rcases Bool.and_eq_true_iff.mp hb with ⟨hrng, _⟩
  cases hcd : r.created_date with
  | none => rw [hcd] at hrp; cases hrp
  | some d0 =>
    rw [hcd] at hrp hrng
    cases hch : r.created_hour with
    | none => rw [hch] at hrp; cases hrp
    | some h0 =>
      rw [hch] at hrp
      have hp : (d0, h0) = p := by simpa using hrp
      rw [← hp]
      exact hrng

theorem newSalesRows_inRange {orders updates : List OrderRow} {facts : List FactRow}
    {lo hi : Date} {r : SSRow} (h : r ∈ newSalesRows orders updates facts lo hi) :
    inRange lo hi r.date = true := by
  rcases List.mem_map.mp h with ⟨d, hd, hr⟩
  rw [← hr]
  exact mem_salesAllDates hd

theorem newOrderRows_inRange {orders updates : List OrderRow} {lo hi : Date} {r : ORow}
    (h : r ∈ newOrderRows orders updates lo hi) : inRange lo hi r.date = true := by
  rcases List.mem_map.mp h with ⟨d, hd, hr⟩
  rw [← hr]
  exact mem_orderAllDates hd

theorem newDiscountRows_inRange {orders updates : List OrderRow} {lo hi : Date} {r : DRow}
    (h : r ∈ newDiscountRows orders updates lo hi) : inRange lo hi r.date = true := by
  rcases List.mem_map.mp h with ⟨d, hd, hr⟩
  rw [← hr]
  exact mem_orderAllDates hd

theorem newGrossRows_inRange {orders : List OrderRow} {dtbl : List DRow} {lo hi : Date}
    {r : GRow} (h : r ∈ newGrossRows orders dtbl lo hi) : inRange lo hi r.date = true := by
  rcases List.mem_map.mp h with ⟨d, hd, hr⟩
  rw [← hr]
  exact mem_salesDates hd

theorem newHourRows_inRange {orders : List OrderRow} {hsess : List HSessRow}
    {lo hi : Date} {r : HRow} (h : r ∈ newHourRows orders hsess lo hi) :
    inRange lo hi r.date = true := by
  rcases List.mem_map.mp h with ⟨p, hp, hr⟩
  rw [← hr]
  exact mem_hourGroups hp

theorem newOverallRows_inRange {stbl : List SSRow} {otbl : List ORow}
    {sess : List SessRow} {gtbl : List GRow} {dtbl : List DRow} {lo hi : Date}
    {r : OvRow} (h : r ∈ newOverallRows stbl otbl sess gtbl dtbl lo hi) :
    inRange lo hi r.date = true := by
  rcases List.mem_map.mp h with ⟨s, hs, hr⟩
  rw [← hr]
  exact (List.mem_filter.mp hs).2

end Dashboard

namespace Dashboard

/-! ## Claim theorems for the incremental summary recomputation -/

/-- Claim C2: the run recomputes each summary table by deleting exactly the
rows whose date lies in [lo, hi] inclusive and inserting freshly computed
rows, all of whose dates lie in the range; every date outside the range
keeps its rows verbatim in every summary table. -/
theorem C2_incremental_scope (db : SummaryDB) (src : SourceDB) (lo hi d : Date) :
    (inRange lo hi d = false →
      rowsUnchangedAt db (executeSummaryQueriesIncremental db src lo hi) d) ∧
    (inRange lo hi d = true →
      rowsFreshAt db (executeSummaryQueriesIncremental db src lo hi) src lo hi d) := by
  constructor
  · intro hout
    refine ⟨?_, ?_, ?_, ?_, ?_, ?_⟩
    · exact filter_outside_frame (fun r : SSRow => inRange lo hi r.date)
        (fun r => decide (r.date = d)) db.sales_summary _
        (fun r hr => newSalesRows_inRange hr)
        (fun a ha => by
          have hda : a.date = d := of_decide_eq_true ha
          show inRange lo hi a.date = false
          rw [hda]; exact hout)
    · exact filter_outside_frame (fun r : ORow => inRange lo hi r.date)
        (fun r => decide (r.date = d)) db.order_summary _
        (fun r hr => newOrderRows_inRange hr)
        (fun a ha => by
          have hda : a.date = d := of_decide_eq_true ha
          show inRange lo hi a.date = false
          rw [hda]; exact hout)
    · exact filter_outside_frame (fun r : DRow => inRange lo hi r.date)
        (fun r => decide (r.date = d)) db.discount_summary _
        (fun r hr => newDiscountRows_inRange hr)
        (fun a ha => by
          have hda : a.date = d := of_decide_eq_true ha
          show inRange lo hi a.date = false
          rw [hda]; exact hout)
    · exact filter_outside_frame (fun r : GRow => inRange lo hi r.date)
        (fun r => decide (r.date = d)) db.gross_summary _
        (fun r hr => newGrossRows_inRange hr)
        (fun a ha => by
          have hda : a.date = d := of_decide_eq_true ha
          show inRange lo hi a.date = false
          rw [hda]; exact hout)
    · exact filter_outside_frame (fun r : HRow => inRange lo hi r.date)
        (fun r => decide (r.date = d)) db.hour_wise_sales _
        (fun r hr => newHourRows_inRange hr)
        (fun a ha => by
          have hda : a.date = d := of_decide_eq_true ha
          show inRange lo hi a.date = false
          rw [hda]; exact hout)
    · exact filter_outside_frame (fun r : OvRow => inRange lo hi r.date)
        (fun r => decide (r.date = d)) db.overall_summary _
        (fun r hr => newOverallRows_inRange hr)
        (fun a ha => by
          have hda : a.date = d := of_decide_eq_true ha
          show inRange lo hi a.date = false
          rw [hda]; exact hout)
  · intro hin
    refine ⟨?_, ?_, ?_, ?_, ?_, ?_⟩
    · exact filter_inside_new (fun r : SSRow => inRange lo hi r.date)
        (fun r => decide (r.date = d)) db.sales_summary _
        (fun a ha => by
          have hda : a.date = d := of_decide_eq_true ha
          show inRange lo hi a.date = true
          rw [hda]; exact hin)
    · exact filter_inside_new (fun r : ORow => inRange lo hi r.date)
        (fun r => decide (r.date = d)) db.order_summary _
        (fun a ha => by
          have hda : a.date = d := of_decide_eq_true ha
          show inRange lo hi a.date = true
          rw [hda]; exact hin)
    · exact filter_inside_new (fun r : DRow => inRange lo hi r.date)
        (fun r => decide (r.date = d)) db.discount_summary _
        (fun a ha => by
          have hda : a.date = d := of_decide_eq_true ha
          show inRange lo hi a.date = true
          rw [hda]; exact hin)
    · exact filter_inside_new (fun r : GRow => inRange lo hi r.date)
        (fun r => decide (r.date = d)) db.gross_summary _
        (fun a ha => by
          have hda : a.date = d := of_decide_eq_true ha
          show inRange lo hi a.date = true
          rw [hda]; exact hin)
    · exact filter_inside_new (fun r : HRow => inRange lo hi r.date)
        (fun r => decide (r.date = d)) db.hour_wise_sales _
        (fun a ha => by
          have hda : a.date = d := of_decide_eq_true ha
          show inRange lo hi a.date = true
          rw [hda]; exact hin)
    · exact filter_inside_new (fun r : OvRow => inRange lo hi r.date)
        (fun r => decide (r.date = d)) db.overall_summary _
        (fun a ha => by
          have hda : a.date = d := of_decide_eq_true ha
          show inRange lo hi a.date = true
          rw [hda]; exact hin)

/-- Witness for C2_incremental_scope: an affected range of the single day
2024-01-05 leaves the rows of 2023-12-01 untouched in every table. -/
theorem C2_incremental_scope_witness :
    inRange dJan5 dJan5 dDec1 = false ∧
    rowsUnchangedAt db0 (executeSummaryQueriesIncremental db0 src0 dJan5 dJan5) dDec1 :=
  ⟨by decide, (C2_incremental_scope db0 src0 dJan5 dJan5 dDec1).1 (by decide)⟩

theorem refundSumRange_eq_spec {facts : List FactRow} {lo hi d : Date}
    (hd : inRange lo hi d = true) :
    refundSumRange facts lo hi d = refundSumSpec facts d := by
  unfold refundSumRange refundSumSpec
  congr 1
  apply List.filter_congr
  intro f _
  by_cases hfd : f.event_date = d
  · rw [hfd]
    simp [hd]
  · simp [hfd]

/-- Claim C1: for every date d inside the affected range, every recomputed
sales_summary row for d carries overall_returns equal to the sum of amount
over the REFUND rows of returns_fact dated d (zero when there are none),
and whenever such fact rows exist a row for d is inserted.  The value is a
function of returns_fact alone: the order tables and their financial
status columns do not enter it. -/
theorem C1_overall_returns (db : SummaryDB) (src : SourceDB) (lo hi d : Date)
    (hd : inRange lo hi d = true) :
    (∀ r ∈ (executeSummaryQueriesIncremental db src lo hi).sales_summary,
        r.date = d → r.overall_returns = refundSumSpec src.returns_fact d) ∧
    ((∃ f ∈ src.returns_fact, f.event_type = .REFUND ∧ f.event_date = d) →
      ∃ r ∈ (executeSummaryQueriesIncremental db src lo hi).sales_summary,
        r.date = d ∧ r.overall_returns = refundSumSpec src.returns_fact d) := by
  constructor
  · intro r hr hrd
    have hr' : r ∈ db.sales_summary.filter (fun x => !(inRange lo hi x.date)) ++
        newSalesRows src.shopify_orders src.shopify_orders_update src.returns_fact
          lo hi := hr
    rcases List.mem_append.mp hr' with hro | hrn
    · exfalso
      have hx := (List.mem_filter.mp hro).2
      rw [hrd, hd] at hx
      simp at hx
    · rcases List.mem_map.mp hrn with ⟨d', hd', hmk⟩
      have hdate : r.date = d' := by rw [← hmk]; rfl
      have hdd : d' = d := by rw [← hdate, hrd]
      rw [← hmk]
      show refundSumRange src.returns_fact lo hi d' = refundSumSpec src.returns_fact d
      rw [hdd, refundSumRange_eq_spec hd]
  · rintro ⟨f, hf, hft, hfd⟩
    have hdmem : d ∈ refundDates src.returns_fact lo hi := by
      unfold refundDates
      apply mem_dedupL.mpr
      apply List.mem_map.mpr
      refine ⟨f, ?_, hfd⟩
      apply List.mem_filter.mpr
      refine ⟨hf, ?_⟩
      rw [hft, hfd]
      simp [hd]
    have hdall :
        d ∈ salesAllDates src.shopify_orders src.shopify_orders_update
          src.returns_fact lo hi := by
      unfold salesAllDates
      exact mem_dedupL.mpr (List.mem_append.mpr (Or.inr hdmem))
    refine ⟨mkSalesRow src.shopify_orders src.shopify_orders_update src.returns_fact
      lo hi d, ?_, rfl, ?_⟩
    · show _ ∈ db.sales_summary.filter (fun x => !(inRange lo hi x.date)) ++
        newSalesRows src.shopify_orders src.shopify_orders_update src.returns_fact
          lo hi
      exact List.mem_append.mpr (Or.inr (List.mem_map.mpr ⟨d, hdall, rfl⟩))
    · show refundSumRange src.returns_fact lo hi d = refundSumSpec src.returns_fact d
      exact refundSumRange_eq_spec hd

/-- Witness for C1_overall_returns: a single REFUND fact of 120 on
2024-01-05, recomputed over the range [2024-01-05, 2024-01-05]. -/
theorem C1_overall_returns_witness :
    inRange dJan5 dJan5 dJan5 = true ∧
    ((∀ r ∈ (executeSummaryQueriesIncremental db0 src0 dJan5 dJan5).sales_summary,
        r.date = dJan5 →
          r.overall_returns = refundSumSpec src0.returns_fact dJan5) ∧
      ((∃ f ∈ src0.returns_fact, f.event_type = .REFUND ∧ f.event_date = dJan5) →
        ∃ r ∈ (executeSummaryQueriesIncremental db0 src0 dJan5 dJan5).sales_summary,
          r.date = dJan5 ∧
            r.overall_returns = refundSumSpec src0.returns_fact dJan5)) :=
  ⟨by decide, C1_overall_returns db0 src0 dJan5 dJan5 dJan5 (by decide)⟩

end Dashboard
